import Mathlib

/-!
Verification development for the PhoneDeploy webhook & API server
(`server-scripts/webhook-server.js`).

The definitions below are a shallow embedding of the server's data model and
operations: the application registry (`apps.json`), the port ledger
(`ports.json`), the slug derivation used for application ids, the Caddy route
configuration generator, the webhook matching logic, and the in-memory
build-process tracking (`activeBuilds`) together with its cancellation and
close-handler behaviour.  JavaScript objects keyed by strings are modelled as
association lists; JavaScript truthiness checks on numbers and strings are
modelled explicitly (`≠ 0`, `≠ ""`).
-/

namespace PD

/-! ## Association lists (JS objects keyed by strings) -/

/-- Lookup of a key in an association list (JS `obj[key]`, `Map.get`). -/
def alookup {α : Type} (k : String) : List (String × α) → Option α
  | [] => none
  | (k', v) :: rest => if k' = k then some v else alookup k rest

/-- Set a key (JS `obj[key] = v`, `Map.set`): replaces the first binding or appends. -/
def ainsert {α : Type} (k : String) (v : α) : List (String × α) → List (String × α)
  | [] => [(k, v)]
  | (k', v') :: rest => if k' = k then (k, v) :: rest else (k', v') :: ainsert k v rest

/-- Remove a key (JS `delete obj[key]`, `Map.delete`): removes the first binding. -/
def aremove {α : Type} (k : String) : List (String × α) → List (String × α)
  | [] => []
  | (k', v') :: rest => if k' = k then rest else (k', v') :: aremove k rest

/-! ## Port ledger (`ports.json`: `loadPorts` / `allocatePort` / `releasePort`) -/

/-- The port ledger persisted in `ports.json`: `{ nextPort, allocated }`. -/
structure Ports where
  nextPort : Nat
  allocated : List (String × Nat)
deriving DecidableEq, Repr

/-- `allocatePort(appId)`: if `ports.allocated[appId]` is truthy, return it
unchanged; otherwise hand out `nextPort`, record the mapping and increment. -/
def allocatePort (ports : Ports) (appId : String) : Nat × Ports :=
  match alookup appId ports.allocated with
  | some p =>
    if p ≠ 0 then (p, ports)
    else
      let port := ports.nextPort
      (port, ⟨port + 1, ainsert appId port ports.allocated⟩)
  | none =>
    let port := ports.nextPort
    (port, ⟨port + 1, ainsert appId port ports.allocated⟩)

/-- `releasePort(appId)`: delete the mapping if `ports.allocated[appId]` is truthy. -/
def releasePort (ports : Ports) (appId : String) : Ports :=
  match alookup appId ports.allocated with
  | some p =>
    if p ≠ 0 then ⟨ports.nextPort, aremove appId ports.allocated⟩ else ports
  | none => ports

/-! ## Application records (`apps.json`) -/

/-- One entry of `config.apps`. Timestamps are opaque strings. -/
structure App where
  id : String
  name : String
  repo : String
  branch : String
  status : String
  port : Int
  domain : String
  buildCommand : String
  startCommand : String
  envVars : List (String × String)
  lastDeployed : String
  createdAt : String
deriving DecidableEq, Repr

/-- `config.apps.find(a => a.id === appId)`. -/
def findApp (apps : List App) (appId : String) : Option App :=
  apps.find? (fun a => a.id == appId)

/-- `config.apps.findIndex(a => a.id === appId)` followed by an in-place update
of that element: rewrite the first entry whose id matches. -/
def updateFirst (f : App → App) (appId : String) : List App → List App
  | [] => []
  | a :: rest => if a.id = appId then f a :: rest else a :: updateFirst f appId rest

/-- `config.apps[idx].status = st` (as in `cancelBuild`, `deployApp`, `stopApp`). -/
def setAppStatus (apps : List App) (appId st : String) : List App :=
  updateFirst (fun a => { a with status := st }) appId apps

/-- Status plus `lastDeployed` update (as in `deployApp`'s close handler). -/
def setAppStatusTs (apps : List App) (appId st ts : String) : List App :=
  updateFirst (fun a => { a with status := st, lastDeployed := ts }) appId apps

/-! ## Slug derivation (`POST /api/apps` id computation, `generateDomain`) -/

/-- JS `toLowerCase` on one character (ASCII model: shift `A`–`Z` down). -/
def lowerChar (c : Char) : Char :=
  if 'A' ≤ c ∧ c ≤ 'Z' then Char.ofNat (c.toNat + 32) else c

/-- JS `toLowerCase` (character-wise, ASCII model). -/
def lowerChars (cs : List Char) : List Char :=
  cs.map lowerChar

/-- A character surviving `[^a-z0-9]` after lowercasing. -/
def isSlugChar (c : Char) : Bool :=
  ('a' ≤ c && c ≤ 'z') || ('0' ≤ c && c ≤ '9')

/-- `.replace(/[^a-z0-9]/g, '-')`. -/
def dashify (cs : List Char) : List Char :=
  cs.map (fun c => if isSlugChar c then c else '-')

/-- The second replace of the slug computation (regex: one-or-more dashes,
global, replaced by a single dash): collapse each maximal dash run. -/
def collapseDashes (cs : List Char) : List Char :=
  cs.foldr (fun c acc => if c = '-' ∧ acc.head? = some '-' then acc else c :: acc) []

/-- Drop one leading dash if present. -/
def dropLeadingDash : List Char → List Char
  | '-' :: rest => rest
  | cs => cs

/-- `.replace(/^-|-$/g, '')`: strip one leading and one trailing dash. -/
def stripEdgeDashes (cs : List Char) : List Char :=
  (dropLeadingDash (dropLeadingDash cs).reverse).reverse

/-- The id computation of `POST /api/apps`: lowercase the name, replace every
character outside `[a-z0-9]` by a dash, collapse dash runs, strip one leading
and one trailing dash. -/
def slugify (name : String) : String :=
  String.mk (stripEdgeDashes (collapseDashes (dashify (lowerChars name.data))))

/-- `generateDomain(appName)`: slug of the name plus the base domain, or
`.localhost` when no base domain is configured. -/
def generateDomain (appName baseDomain : String) : String :=
  if baseDomain ≠ "" then slugify appName ++ "." ++ baseDomain
  else slugify appName ++ "." ++ "localhost"

/-! ## JS truthiness helpers -/

/-- JS `v || d` for an optional string field: falls through on `undefined` and `""`. -/
def jsStrOr (v : Option String) (d : String) : String :=
  match v with
  | some s => if s ≠ "" then s else d
  | none => d

/-- JS `a || b` on two optional strings. -/
def jsOrOpt (a b : Option String) : Option String :=
  match a with
  | some s => if s ≠ "" then some s else b
  | none => b

/-- `data.port && data.port > 0 ? data.port : <fallback>`: the explicitly
supplied port, when it is truthy and positive. -/
def explicitPort (p : Option Int) : Option Int :=
  match p with
  | some v => if v ≠ 0 ∧ v > 0 then some v else none
  | none => none

/-- An ASCII whitespace character (model of what JS `trim` removes). -/
def isSpaceChar (c : Char) : Bool :=
  c = ' ' || c = '\t' || c = '\n' || c = '\r'

/-- JS `String.prototype.trim` (ASCII model): strip leading and trailing
whitespace. -/
def jsTrim (s : String) : String :=
  String.mk (((s.data.dropWhile isSpaceChar).reverse.dropWhile isSpaceChar).reverse)

/-- `data.domain && data.domain.trim() ? data.domain.trim() : generateDomain(...)`. -/
def chosenDomain (d : Option String) (name baseDomain : String) : String :=
  match d with
  | some s => if s ≠ "" ∧ jsTrim s ≠ "" then jsTrim s else generateDomain name baseDomain
  | none => generateDomain name baseDomain

/-! ## HTTP responses -/

/-- The JSON (or plain-text) body the server sends back. -/
inductive Body
  | msg (s : String)
  | err (s : String)
  | msgApp (s : String) (a : App)
  | appJson (a : App)
  | text (s : String)
deriving DecidableEq, Repr

/-- An HTTP response: status code plus body. -/
structure Resp where
  status : Nat
  body : Body
deriving DecidableEq, Repr

/-! ## Persistent server state and the management API operations -/

/-- The durable state the handlers read and write: the application registry
(`apps.json`), the port ledger (`ports.json`) and `settings.baseDomain`. -/
structure ServerState where
  apps : List App
  ports : Ports
  baseDomain : String
deriving DecidableEq, Repr

/-- State on first start: empty registry, ledger `{nextPort: 4000, allocated: {}}`,
no base domain configured. -/
def initialState : ServerState := ⟨[], ⟨4000, []⟩, ""⟩

/-- Request body of `POST /api/apps`. -/
structure CreateReq where
  name : String
  repo : String
  branch : Option String
  port : Option Int
  domain : Option String
  buildCommand : Option String
  startCommand : Option String
  envVars : Option (List (String × String))
deriving DecidableEq, Repr

/-- The `POST /api/apps` handler: validation, slug id, duplicate check, port
selection (explicit positive port or `allocatePort`), domain selection, and
insertion of the new record with status `building`. `now` stands for the
`new Date().toISOString()` timestamps. -/
def createApp (s : ServerState) (data : CreateReq) (now : String) : Resp × ServerState :=
  if data.name = "" ∨ data.repo = "" then
    (⟨400, .err "Name and repo are required"⟩, s)
  else
    let appId := slugify data.name
    if (findApp s.apps appId).isSome then
      (⟨400, .err "App with this name already exists"⟩, s)
    else
      let pp : Int × Ports :=
        match explicitPort data.port with
        | some p => (p, s.ports)
        | none =>
          let r := allocatePort s.ports appId
          ((r.1 : Int), r.2)
      let domain := chosenDomain data.domain data.name s.baseDomain
      let app : App :=
        { id := appId
          name := data.name
          repo := data.repo
          branch := jsStrOr data.branch "main"
          status := "building"
          port := pp.1
          domain := domain
          buildCommand := jsStrOr data.buildCommand "npm install && npm run build"
          startCommand := jsStrOr data.startCommand "npm start"
          envVars := data.envVars.getD []
          lastDeployed := now
          createdAt := now }
      (⟨202, .msgApp "Deployment started" app⟩,
        { s with apps := s.apps ++ [app], ports := pp.2 })

/-- Request body of `PUT /api/apps/{id}`: any subset of record fields may be
present; `updateApp` only ever reads the six allowlisted ones. -/
structure UpdateReq where
  id : Option String
  name : Option String
  repo : Option String
  status : Option String
  branch : Option String
  buildCommand : Option String
  startCommand : Option String
  port : Option Int
  domain : Option String
  envVars : Option (List (String × String))
deriving DecidableEq, Repr

/-- An update payload with no fields present. -/
def emptyUpdate : UpdateReq :=
  ⟨none, none, none, none, none, none, none, none, none, none⟩

/-- The `allowedFields.forEach` loop of `updateApp`: copy each of
`branch, buildCommand, startCommand, port, domain, envVars` that is present. -/
def applyUpdates (a : App) (u : UpdateReq) : App :=
  { a with
    branch := u.branch.getD a.branch
    buildCommand := u.buildCommand.getD a.buildCommand
    startCommand := u.startCommand.getD a.startCommand
    port := u.port.getD a.port
    domain := u.domain.getD a.domain
    envVars := u.envVars.getD a.envVars }

/-- `updateApp(appId, updates)`: `null` when the id is absent, otherwise the
updated record; only the registry entry is rewritten, never the port ledger. -/
def updateApp (s : ServerState) (appId : String) (u : UpdateReq) :
    Option App × ServerState :=
  match findApp s.apps appId with
  | none => (none, s)
  | some _ =>
    let apps1 := updateFirst (fun a => applyUpdates a u) appId s.apps
    (findApp apps1 appId, { s with apps := apps1 })

/-- `deleteApp(appId)`'s effect on durable state: release the ledger entry and
filter the record out of the registry. -/
def deleteApp (s : ServerState) (appId : String) : ServerState :=
  { s with
    ports := releasePort s.ports appId
    apps := s.apps.filter (fun a => a.id != appId) }

/-! ## Route Publisher (`updateCaddyConfig`) -/

/-- One generated Caddy route block for an application. -/
def caddyBlock (a : App) : String :=
  "# " ++ a.name ++ "\n" ++ a.domain ++ " \x7b\n    reverse_proxy localhost:" ++
    toString a.port ++ "\n    encode gzip\n\x7d\n\n"

/-- `updateCaddyConfig()`: fold over the registry appending a block for every
application with truthy `domain` and truthy `port`. -/
def updateCaddyConfig (apps : List App) : String :=
  apps.foldl
    (fun acc a => if a.domain ≠ "" ∧ a.port ≠ 0 then acc ++ caddyBlock a else acc)
    "# Auto-generated app configurations\n\n"

/-- The applications that contribute a block to the generated fragment. -/
def caddyApps (apps : List App) : List App :=
  apps.filter (fun a => a.domain != "" && a.port != 0)

/-! ## Build logs (`getLogs`, `GET /api/apps/{id}/logs`) -/

/-- `getLogs(appId)`: the contents of `logs/{appId}-build.log` when that file
exists, and `''` otherwise. The log directory is an association list from file
name to contents. -/
def getLogs (fsLogs : List (String × String)) (appId : String) : String :=
  match alookup (appId ++ "-build.log") fsLogs with
  | some content => content
  | none => ""

/-- The `GET /api/apps/{id}/logs` handler: always `200` with the plain text. -/
def logsHandler (fsLogs : List (String × String)) (appId : String) : Resp :=
  ⟨200, .text (getLogs fsLogs appId)⟩

/-! ## Webhook ingress (`POST /webhook`, after signature verification) -/

/-- The fields of a push payload the handler reads: `repository.clone_url`,
`repository.html_url` and `ref`. -/
structure Payload where
  cloneUrl : Option String
  htmlUrl : Option String
  ref : Option String
deriving DecidableEq, Repr

/-- Strip `pat` from the front of a character list, if it is there. -/
def dropLead : List Char → List Char → Option (List Char)
  | [], rest => some rest
  | _, [] => none
  | p :: ps, c :: cs => if c = p then dropLead ps cs else none

/-- Replace the first occurrence of `pat` by `rep` in a character list. -/
def replaceFirstAux (pat rep : List Char) : List Char → List Char
  | [] => []
  | c :: cs =>
    match dropLead pat (c :: cs) with
    | some rest => rep ++ rest
    | none => c :: replaceFirstAux pat rep cs

/-- JS `String.replace` with a string pattern: replace the first occurrence. -/
def replaceFirst (s pat rep : String) : String :=
  String.mk (replaceFirstAux pat.data rep.data s.data)

/-- `payload.ref?.replace('refs/heads/', '')`. -/
def pushedBranch (p : Payload) : Option String :=
  p.ref.map (fun r => replaceFirst r "refs/heads/" "")

/-- `s === o` where `o` may be `undefined`. -/
def strEqOpt (s : String) (o : Option String) : Bool :=
  match o with
  | some u => s == u
  | none => false

/-- `a.repo === repoUrl || a.repo === payload.repository?.html_url`
where `repoUrl = clone_url || html_url`. -/
def repoMatches (a : App) (p : Payload) : Bool :=
  strEqOpt a.repo (jsOrOpt p.cloneUrl p.htmlUrl) || strEqOpt a.repo p.htmlUrl

/-- What the webhook handler decides to do after parsing the payload. -/
inductive WebhookOutcome
  | deploy (a : App)
  | noMatch
deriving DecidableEq, Repr

/-- The webhook matching logic: `find` the first registry entry whose repo URL
matches, then deploy only if that entry's branch equals the pushed branch. -/
def webhookDecision (apps : List App) (p : Payload) : WebhookOutcome :=
  match apps.find? (fun a => repoMatches a p) with
  | some a => if strEqOpt a.branch (pushedBranch p) then .deploy a else .noMatch
  | none => .noMatch

/-- The response the webhook handler sends for each outcome. -/
def webhookResp (o : WebhookOutcome) : Resp :=
  match o with
  | .deploy a => ⟨200, .msgApp "Deployment started" a⟩
  | .noMatch => ⟨200, .msg "No matching app found"⟩

/-! ## Build processes, cancellation and the deploy pipeline

The in-memory `activeBuilds` map, the spawned `sh deploy.sh` child processes,
the `SIGTERM`/`SIGKILL` delivery of `cancelBuild`, its 5-second force-kill
`setTimeout`, and `deployApp`'s `close` handler are modelled as a labelled
transition system.  The environment (OS and Node event loop) is modelled as:

* a running process that has not been signalled may exit normally with any
  code; once `SIGTERM` has been delivered it terminates with that signal —
  possibly after an arbitrary delay, which models a child that "ignores" the
  graceful signal until the force-kill timer delivers `SIGKILL`;
* `SIGKILL` terminates a not-yet-exited process immediately;
* a `setTimeout` callback fires no earlier than its deadline, and time cannot
  advance past a pending timer's deadline without the callback firing;
* each exited process gets its `close` callback run exactly once, at some
  later point of the event loop.
-/

/-- Termination signals used by `cancelBuild`. -/
inductive Sig
  | term
  | kill
deriving DecidableEq, Repr

/-- How a child process ended: `(code, null)` or `(null, signal)` in the
`close` handler. -/
inductive ExitKind
  | normal (code : Int)
  | bySignal (s : Sig)
deriving DecidableEq, Repr

/-- Lifecycle of a spawned build process. -/
inductive ProcState
  | running
  | sigterm
  | exited (e : ExitKind)
deriving DecidableEq, Repr

/-- A spawned `sh deploy.sh` child: its handle id, which application it builds,
its lifecycle state, and whether its `close` callback has already run. -/
structure Proc where
  pid : Nat
  appId : String
  state : ProcState
  closeDone : Bool
deriving DecidableEq, Repr

/-- A pending `setTimeout` scheduled by `cancelBuild`: force-kill `pid` for
`appId` at `deadline` (5000 ms after the cancel). -/
structure Timer where
  appId : String
  pid : Nat
  deadline : Nat
deriving DecidableEq, Repr

/-- The whole system state: durable state, the `activeBuilds` map, the spawned
processes, pending force-kill timers, the next fresh process handle and the
current time in milliseconds. -/
structure World where
  srv : ServerState
  activeBuilds : List (String × Nat)
  procs : List Proc
  timers : List Timer
  nextPid : Nat
  now : Nat
deriving DecidableEq, Repr

/-- Find a process by handle. -/
def findProc (ps : List Proc) (pid : Nat) : Option Proc :=
  ps.find? (fun p => p.pid == pid)

/-- Rewrite the process with the given handle. -/
def mapProc (ps : List Proc) (pid : Nat) (f : Proc → Proc) : List Proc :=
  ps.map (fun p => if p.pid = pid then f p else p)

/-- Effect of delivering `SIGTERM` (`buildProcess.kill('SIGTERM')`). -/
def deliverSigterm : ProcState → ProcState
  | .running => .sigterm
  | st => st

/-- Effect of delivering `SIGKILL` (`buildProcess.kill('SIGKILL')`). -/
def deliverSigkill : ProcState → ProcState
  | .running => .exited (.bySignal .kill)
  | .sigterm => .exited (.bySignal .kill)
  | st => st

/-- Whether the process with this handle has exited. -/
def isExited (w : World) (pid : Nat) : Bool :=
  match findProc w.procs pid with
  | some p =>
    match p.state with
    | .exited _ => true
    | _ => false
  | none => false

/-- `cancelBuild(appId)`: if `activeBuilds` has a process for the id, deliver
`SIGTERM`, schedule the 5-second force-kill timeout, set the registry status to
`stopped` immediately, and return `true`; otherwise return `false` and change
nothing. -/
def cancelBuildStep (w : World) (appId : String) : Bool × World :=
  match alookup appId w.activeBuilds with
  | some pid =>
    (true,
      { w with
        procs := mapProc w.procs pid (fun p => { p with state := deliverSigterm p.state })
        timers := w.timers ++ [⟨appId, pid, w.now + 5000⟩]
        srv := { w.srv with apps := setAppStatus w.srv.apps appId "stopped" } })
  | none => (false, w)

/-- The `POST /api/apps/{id}/cancel` handler: `200 {message}` when a build was
cancelled, `400 {error}` otherwise. -/
def cancelHandler (w : World) (appId : String) : Resp × World :=
  let r := cancelBuildStep w appId
  if r.1 then (⟨200, .msg "Build cancelled"⟩, r.2)
  else (⟨400, .err "No active build to cancel"⟩, r.2)

/-- Second stage of `deployApp`: mark the registry status `building`. -/
def buildingStep (w : World) (appId : String) : World :=
  { w with srv := { w.srv with apps := setAppStatus w.srv.apps appId "building" } }

/-- Third stage of `deployApp`: spawn a fresh child and record it in
`activeBuilds`. -/
def spawnStep (w : World) (appId : String) : World :=
  { w with
    procs := w.procs ++ [⟨w.nextPid, appId, .running, false⟩]
    activeBuilds := ainsert appId w.nextPid w.activeBuilds
    nextPid := w.nextPid + 1 }

/-- The synchronous part of `deployApp(app)`, in source order: cancel any
existing build for the id first, then mark the status `building`, then spawn
the fresh child and register it. -/
def deployStep (w : World) (appId : String) : World :=
  spawnStep (buildingStep (cancelBuildStep w appId).2 appId) appId

/-- Remove the first occurrence of a timer from the pending list. -/
def eraseTimer (t : Timer) : List Timer → List Timer
  | [] => []
  | t' :: rest => if t' = t then rest else t' :: eraseTimer t rest

/-- The `setTimeout` callback of `cancelBuild`: if `activeBuilds` still has an
entry for the id, deliver `SIGKILL` to the captured process and delete the
entry. -/
def timerCallback (w : World) (t : Timer) : World :=
  if (alookup t.appId w.activeBuilds).isSome then
    { w with
      timers := eraseTimer t w.timers
      procs := mapProc w.procs t.pid (fun p => { p with state := deliverSigkill p.state })
      activeBuilds := aremove t.appId w.activeBuilds }
  else { w with timers := eraseTimer t w.timers }

/-- The status the `close` handler records: `stopped` for a `SIGTERM`/`SIGKILL`
exit, `running` for exit code `0`, and `error` otherwise. -/
def closeStatusOf : ExitKind → String
  | .bySignal _ => "stopped"
  | .normal code => if code = 0 then "running" else "error"

/-- `deployApp`'s `child.on('close')` handler: drop the `activeBuilds` entry for
the application id, then record the final status and `lastDeployed`. -/
def closeCallback (w : World) (pid : Nat) : World :=
  match findProc w.procs pid with
  | some p =>
    match p.state with
    | .exited e =>
      { w with
        procs := mapProc w.procs pid (fun q => { q with closeDone := true })
        activeBuilds := aremove p.appId w.activeBuilds
        srv := { w.srv with
          apps := setAppStatusTs w.srv.apps p.appId (closeStatusOf e) (toString w.now) } }
    | _ => w
  | none => w

/-- Events of the transition system: the two request-driven operations, the
environment's process-exit events, timer firing, the `close` callback and the
passage of time. -/
inductive Ev
  | deploy (appId : String)
  | cancelReq (appId : String)
  | procExitTerm (pid : Nat)
  | procExitNormal (pid : Nat) (code : Int)
  | timerFire (t : Timer)
  | closeCb (pid : Nat)
  | tick (d : Nat)
deriving DecidableEq, Repr

/-- When an event may occur. -/
def enabled (w : World) (e : Ev) : Bool :=
  match e with
  | .deploy appId => (findApp w.srv.apps appId).isSome
  | .cancelReq _ => true
  | .procExitTerm pid =>
    match findProc w.procs pid with
    | some p => decide (p.state = .sigterm)
    | none => false
  | .procExitNormal pid _ =>
    match findProc w.procs pid with
    | some p => decide (p.state = .running)
    | none => false
  | .timerFire t => decide (t ∈ w.timers) && decide (t.deadline ≤ w.now)
  | .closeCb pid =>
    match findProc w.procs pid with
    | some p =>
      (match p.state with
        | .exited _ => true
        | _ => false) && !p.closeDone
    | none => false
  | .tick d => w.timers.all (fun t => decide (w.now + d ≤ t.deadline))

/-- Effect of an event. -/
def stepEv (w : World) (e : Ev) : World :=
  match e with
  | .deploy appId => deployStep w appId
  | .cancelReq appId => (cancelBuildStep w appId).2
  | .procExitTerm pid =>
    { w with procs := mapProc w.procs pid (fun p => { p with state := .exited (.bySignal .term) }) }
  | .procExitNormal pid code =>
    { w with procs := mapProc w.procs pid (fun p => { p with state := .exited (.normal code) }) }
  | .timerFire t => timerCallback w t
  | .closeCb pid => closeCallback w pid
  | .tick d => { w with now := w.now + d }

/-- A valid run: every event is enabled when it occurs. -/
inductive Steps : World → List Ev → World → Prop
  | nil (w : World) : Steps w [] w
  | cons (w : World) (e : Ev) (evs : List Ev) (w' : World) :
      enabled w e = true → Steps (stepEv w e) evs w' → Steps w (e :: evs) w'

/-- Runs in which no further deploy trigger and no further cancel request is
issued for any id. -/
def noInterference (evs : List Ev) : Prop :=
  ∀ e ∈ evs, (∀ a, e ≠ Ev.deploy a) ∧ (∀ a, e ≠ Ev.cancelReq a)

/-- A settled run end: every spawned process has exited and had its `close`
callback processed. -/
def Settled (w : World) : Prop :=
  ∀ q ∈ w.procs, (∃ e, q.state = ProcState.exited e) ∧ q.closeDone = true

/-- Runs without further deploy triggers (used for the cancellation claims). -/
def noDeploys (evs : List Ev) : Prop :=
  ∀ e ∈ evs, ∀ a, e ≠ Ev.deploy a

/-! ## Derived definitions used by the statements -/

/-- A sequence of `allocatePort` calls, returning the handed-out ports. -/
def allocRun (ports : Ports) : List String → List Nat × Ports
  | [] => ([], ports)
  | i :: rest =>
    let r := allocatePort ports i
    let rr := allocRun r.2 rest
    (r.1 :: rr.1, rr.2)

/-- Concatenation of the route blocks of a list of applications. -/
def concatBlocks : List App → String
  | [] => ""
  | a :: rest => caddyBlock a ++ concatBlocks rest

/-- Well-formedness of the port ledger: distinct ids, distinct ports, and every
recorded port positive and below the counter. -/
def PortsWF (ports : Ports) : Prop :=
  0 < ports.nextPort ∧
  (ports.allocated.map Prod.fst).Nodup ∧
  (ports.allocated.map Prod.snd).Nodup ∧
  ∀ kv ∈ ports.allocated, 0 < kv.2 ∧ kv.2 < ports.nextPort

/-- The durable states the server can reach from a fresh install, through the
operations that write the registry or the ledger: creation, update, deletion,
and the status writes of `deployApp` (start and close handler), `cancelBuild`,
`startApp` and `stopApp`. -/
inductive Reach : ServerState → Prop
  | init : Reach initialState
  | create (s : ServerState) (d : CreateReq) (now : String) :
      Reach s → Reach (createApp s d now).2
  | update (s : ServerState) (appId : String) (u : UpdateReq) :
      Reach s → Reach (updateApp s appId u).2
  | del (s : ServerState) (appId : String) :
      Reach s → Reach (deleteApp s appId)
  | building (s : ServerState) (appId : String) :
      Reach s → Reach { s with apps := setAppStatus s.apps appId "building" }
  | cancelled (s : ServerState) (appId : String) :
      Reach s → Reach { s with apps := setAppStatus s.apps appId "stopped" }
  | closed (s : ServerState) (appId ts : String) (e : ExitKind) :
      Reach s → Reach { s with apps := setAppStatusTs s.apps appId (closeStatusOf e) ts }
  | started (s : ServerState) (appId : String) (ok : Bool) :
      Reach s → Reach { s with apps := setAppStatus s.apps appId (if ok then "running" else "error") }
  | stopOne (s : ServerState) (appId : String) :
      Reach s → Reach { s with apps := setAppStatus s.apps appId "stopped" }

/-! ## Concrete states used by counterexamples and witnesses -/

/-- A creation request with only name, repo and possibly a port. -/
def mkCreateReq (name repo : String) (port : Option Int) : CreateReq :=
  ⟨name, repo, none, port, none, none, none, none⟩

/-- Two applications created with the same explicit port `5000`. -/
def sharedPortState : ServerState :=
  (createApp (createApp initialState (mkCreateReq "aa" "r1" (some 5000)) "t").2
    (mkCreateReq "bb" "r2" (some 5000)) "t").2

/-- Two applications created with auto-allocated ports. -/
def autoPortState : ServerState :=
  (createApp (createApp initialState (mkCreateReq "aa" "r1" none) "t").2
    (mkCreateReq "bb" "r2" none) "t").2

/-- An application whose port was set to `-1` through the update API. -/
def negPortState : ServerState :=
  (updateApp (createApp initialState (mkCreateReq "x" "r" (some 5000)) "t").2 "x"
    { emptyUpdate with port := some (-1) }).2

/-- The record held by `negPortState`. -/
def negPortApp : App :=
  ⟨"x", "x", "r", "main", "building", -1, "x.localhost",
    "npm install && npm run build", "npm start", [], "t", "t"⟩

/-- A repository URL shared by two registered applications. -/
def repoX : String := "https://github.com/u/r"

/-- First registry entry for `repoX`, registered on branch `dev`. -/
def appOnDev : App :=
  ⟨"a", "a", repoX, "dev", "running", 4000, "a.localhost", "b", "s", [], "t", "t"⟩

/-- Second registry entry for `repoX`, registered on branch `main`. -/
def appOnMain : App :=
  ⟨"b", "b", repoX, "main", "running", 4001, "b.localhost", "b", "s", [], "t", "t"⟩

/-- A push event on `refs/heads/main` for `repoX`. -/
def payloadMain : Payload := ⟨some repoX, some repoX, some "refs/heads/main"⟩

/-- A registered application used by the process-model scenarios. -/
def app1 : App :=
  ⟨"app1", "app1", "r", "main", "building", 4000, "app1.localhost", "b", "s", [], "t0", "t0"⟩

/-- `app1` registered, one build in flight as process `1`. -/
def wBuild : World :=
  { srv := ⟨[app1], ⟨4001, [("app1", 4000)]⟩, ""⟩
    activeBuilds := [("app1", 1)]
    procs := [⟨1, "app1", .running, false⟩]
    timers := []
    nextPid := 2
    now := 0 }

/-- `app1` registered, no build in flight. -/
def wIdle : World :=
  { srv := ⟨[app1], ⟨4001, [("app1", 4000)]⟩, ""⟩
    activeBuilds := []
    procs := []
    timers := []
    nextPid := 1
    now := 0 }

/-- The world right after `cancelBuild("app1")` ran against `wBuild`. -/
def wCancelled : World := (cancelBuildStep wBuild "app1").2

/-- The world after two back-to-back deploy triggers for `app1` from `wIdle`. -/
def wSecond : World := deployStep (deployStep wIdle "app1") "app1"

/-- Invariant for the cancellation scenario: process `1` is the only process,
`activeBuilds` holds at most its entry, all timers are its force-kill timers,
and either it has exited already or its 5-second timer is still pending with
time not yet past the deadline. -/
def InvCancel (w : World) : Prop :=
  (∃ st cd, w.procs = [⟨1, "app1", st, cd⟩]) ∧
  (w.activeBuilds = [("app1", 1)] ∨ w.activeBuilds = []) ∧
  (∀ t ∈ w.timers, t.appId = "app1" ∧ t.pid = 1) ∧
  (isExited w 1 = true ∨
    ((⟨"app1", 1, 5000⟩ : Timer) ∈ w.timers ∧ w.now ≤ 5000 ∧
      alookup "app1" w.activeBuilds = some 1))

/-- Invariant for the double-deploy scenario: process `1` (superseded) is
signalled or signal-exited, process `2` (current) is running or exited
normally, timers belong to process `1`, and `activeBuilds` holds at most the
entry for process `2`. -/
def InvTwo (w : World) : Prop :=
  (∃ st1 cd1 st2 cd2,
      w.procs = [⟨1, "app1", st1, cd1⟩, ⟨2, "app1", st2, cd2⟩] ∧
      (st1 = ProcState.sigterm ∨ ∃ s, st1 = ProcState.exited (.bySignal s)) ∧
      (st2 = ProcState.running ∨ ∃ c, st2 = ProcState.exited (.normal c))) ∧
  (∀ t ∈ w.timers, t.appId = "app1" ∧ t.pid = 1) ∧
  (w.activeBuilds = [("app1", 2)] ∨ w.activeBuilds = [])

/-- Events that settle the double-deploy scenario: the superseded process dies
from the signal, the new one finishes, both close callbacks run. -/
def evsDone : List Ev :=
  [.procExitTerm 1, .closeCb 1, .procExitNormal 2 0, .closeCb 2]

/-- The settled world of the double-deploy scenario. -/
def wDone : World := evsDone.foldl stepEv wSecond

/-- Events for the cancellation scenario in which the child ignores `SIGTERM`:
time reaches the 5-second deadline, the force-kill timer fires, time moves
on. -/
def evsKill : List Ev := [.tick 5000, .timerFire ⟨"app1", 1, 5000⟩, .tick 1]

/-- End world of the force-kill run. -/
def wKilled : World := evsKill.foldl stepEv wCancelled

/-- World in which the cancelled process has exited via `SIGTERM` but its
`close` callback has not yet run. -/
def wTermExited : World := stepEv wCancelled (.procExitTerm 1)

/-! # Theorems -/

/-! ## Association-list lemmas -/

theorem alookup_ainsert_self {α : Type} (k : String) (v : α) (m : List (String × α)) :
    alookup k (ainsert k v m) = some v := by
  induction m with
  | nil => simp [ainsert, alookup]
  | cons kv rest ih =>
    obtain ⟨k', v'⟩ := kv
    by_cases h : k' = k
    · simp [ainsert, h, alookup]
    · simp [ainsert, h, alookup, ih]

theorem alookup_ainsert_ne {α : Type} {k k' : String} (h : k' ≠ k) (v : α)
    (m : List (String × α)) : alookup k' (ainsert k v m) = alookup k' m := by
  induction m with
  | nil =>
    show (if k = k' then some v else alookup k' []) = alookup k' []
    rw [if_neg fun he => h he.symm]
  | cons kv rest ih =>
    obtain ⟨k₀, v₀⟩ := kv
    by_cases h0 : k₀ = k
    · subst h0
      simp only [ainsert, if_pos rfl, alookup]
      rw [if_neg fun he : k₀ = k' => h he.symm, if_neg fun he : k₀ = k' => h he.symm]
    · simp only [ainsert, if_neg h0, alookup]
      by_cases h1 : k₀ = k'
      · simp [h1]
      · simp [h1, ih]

theorem alookup_aremove_ne {α : Type} {k k' : String} (h : k' ≠ k)
    (m : List (String × α)) : alookup k' (aremove k m) = alookup k' m := by
  induction m with
  | nil => simp [aremove]
  | cons kv rest ih =>
    obtain ⟨k₀, v₀⟩ := kv
    by_cases h0 : k₀ = k
    · subst h0
      have hrm : aremove k₀ ((k₀, v₀) :: rest) = rest := by simp [aremove]
      rw [hrm]
      show alookup k' rest = if k₀ = k' then some v₀ else alookup k' rest
      rw [if_neg fun he : k₀ = k' => h he.symm]
    · simp only [aremove, if_neg h0, alookup]
      by_cases h1 : k₀ = k'
      · simp [h1]
      · simp [h1, ih]

theorem alookup_mem {α : Type} {k : String} {v : α} {m : List (String × α)}
    (h : alookup k m = some v) : (k, v) ∈ m := by
  induction m with
  | nil => simp [alookup] at h
  | cons kv rest ih =>
    obtain ⟨k₀, v₀⟩ := kv
    by_cases h0 : k₀ = k
    · subst h0
      simp [alookup] at h
      simp [h]
    · simp only [alookup, if_neg h0] at h
      exact List.mem_cons_of_mem _ (ih h)

theorem alookup_none_not_key {α : Type} {k : String} {m : List (String × α)}
    (h : alookup k m = none) : ∀ kv ∈ m, kv.1 ≠ k := by
  induction m with
  | nil => simp
  | cons kv rest ih =>
    obtain ⟨k₀, v₀⟩ := kv
    by_cases h0 : k₀ = k
    · simp [alookup, h0] at h
    · simp only [alookup, if_neg h0] at h
      intro kv hkv
      rcases List.mem_cons.1 hkv with rfl | hmem
      · exact h0
      · exact ih h kv hmem

theorem ainsert_not_key {α : Type} {k : String} (v : α) {m : List (String × α)}
    (h : alookup k m = none) : ainsert k v m = m ++ [(k, v)] := by
  induction m with
  | nil => simp [ainsert]
  | cons kv rest ih =>
    obtain ⟨k₀, v₀⟩ := kv
    by_cases h0 : k₀ = k
    · simp [alookup, h0] at h
    · simp only [alookup, if_neg h0] at h
      simp [ainsert, h0, ih h]

theorem aremove_sublist {α : Type} (k : String) (m : List (String × α)) :
    (aremove k m).Sublist m := by
  induction m with
  | nil => simp [aremove]
  | cons kv rest ih =>
    obtain ⟨k₀, v₀⟩ := kv
    by_cases h0 : k₀ = k
    · simp only [aremove, if_pos h0]
      exact List.sublist_cons_self _ _
    · simp only [aremove, if_neg h0]
      exact ih.cons₂ (k₀, v₀)

/-! ## Port allocator lemmas (claim C7) -/

theorem allocatePort_fresh (ports : Ports) (appId : String)
    (h : alookup appId ports.allocated = none) :
    allocatePort ports appId =
      (ports.nextPort, ⟨ports.nextPort + 1, ainsert appId ports.nextPort ports.allocated⟩) := by
  simp [allocatePort, h]

theorem allocatePort_lookup_other (ports : Ports) (appId other : String)
    (h : other ≠ appId) :
    alookup other (allocatePort ports appId).2.allocated = alookup other ports.allocated := by
  unfold allocatePort
  cases hl : alookup appId ports.allocated with
  | none => simp [alookup_ainsert_ne h]
  | some p =>
    by_cases hp : p ≠ 0
    · simp [hp]
    · simp [hp, alookup_ainsert_ne h]

theorem allocRun_lookup_notmem (ports : Ports) (ids : List String) (other : String)
    (h : other ∉ ids) :
    alookup other (allocRun ports ids).2.allocated = alookup other ports.allocated := by
  induction ids generalizing ports with
  | nil => rfl
  | cons i rest ih =>
    have hne : other ≠ i := fun he => h (he ▸ List.mem_cons_self i rest)
    have hrest : other ∉ rest := fun hm => h (List.mem_cons_of_mem _ hm)
    calc alookup other (allocRun ports (i :: rest)).2.allocated
        = alookup other (allocRun (allocatePort ports i).2 rest).2.allocated := rfl
      _ = alookup other (allocatePort ports i).2.allocated := ih _ hrest
      _ = alookup other ports.allocated := allocatePort_lookup_other _ _ _ hne

theorem allocRun_fresh (ports : Ports) (ids : List String) (hnd : ids.Nodup)
    (hfresh : ∀ i ∈ ids, alookup i ports.allocated = none) :
    (allocRun ports ids).1 = List.range' ports.nextPort ids.length ∧
    (allocRun ports ids).2.nextPort = ports.nextPort + ids.length ∧
    List.Forall₂ (fun i p => alookup i (allocRun ports ids).2.allocated = some p)
      ids (allocRun ports ids).1 := by
  induction ids generalizing ports with
  | nil => exact ⟨rfl, rfl, List.Forall₂.nil⟩
  | cons i rest ih =>
    have hi : alookup i ports.allocated = none := hfresh i (List.mem_cons_self i rest)
    have hstep := allocatePort_fresh ports i hi
    have hnd' : rest.Nodup := (List.nodup_cons.1 hnd).2
    have hni : i ∉ rest := (List.nodup_cons.1 hnd).1
    set ports1 : Ports :=
      ⟨ports.nextPort + 1, ainsert i ports.nextPort ports.allocated⟩ with hports1
    have hfresh' : ∀ j ∈ rest, alookup j ports1.allocated = none := by
      intro j hj
      have hne : j ≠ i := fun he => hni (he ▸ hj)
      rw [hports1]
      show alookup j (ainsert i ports.nextPort ports.allocated) = none
      rw [alookup_ainsert_ne hne]
      exact hfresh j (List.mem_cons_of_mem _ hj)
    obtain ⟨ih1, ih2, ih3⟩ := ih ports1 hnd' hfresh'
    have hrun : allocRun ports (i :: rest) =
        ((ports.nextPort) :: (allocRun ports1 rest).1, (allocRun ports1 rest).2) := by
      show (let r := allocatePort ports i
            let rr := allocRun r.2 rest
            (r.1 :: rr.1, rr.2)) = _
      rw [hstep]
    refine ⟨?_, ?_, ?_⟩
    · rw [hrun]
      simp only [List.length_cons]
      rw [List.range'_succ, ih1]
    · rw [hrun]
      have hp1 : ports1.nextPort = ports.nextPort + 1 := rfl
      rw [ih2, hp1, List.length_cons]
      omega
    · rw [hrun]
      refine List.Forall₂.cons ?_ ?_
      · show alookup i (allocRun ports1 rest).2.allocated = some ports.nextPort
        rw [allocRun_lookup_notmem _ _ _ hni, hports1]
        exact alookup_ainsert_self i ports.nextPort ports.allocated
      · exact ih3

/-- C7: `allocate(id)` is idempotent — an id already recorded in the ledger
gets its recorded port back with the ledger unchanged — and a run of
allocations over distinct fresh ids returns consecutive (hence strictly
increasing and pairwise distinct) ports starting at `nextPort`, records every
mapping, and advances `nextPort` by the number of allocations. -/
theorem allocatePort_contract :
    (∀ (ports : Ports) (appId : String) (p : Nat),
        alookup appId ports.allocated = some p → p ≠ 0 →
        allocatePort ports appId = (p, ports)) ∧
    (∀ (ports : Ports) (ids : List String),
        ids.Nodup → (∀ i ∈ ids, alookup i ports.allocated = none) →
        (allocRun ports ids).1 = List.range' ports.nextPort ids.length ∧
        List.Pairwise (· < ·) (allocRun ports ids).1 ∧
        (allocRun ports ids).1.Nodup ∧
        (allocRun ports ids).2.nextPort = ports.nextPort + ids.length ∧
        List.Forall₂ (fun i p => alookup i (allocRun ports ids).2.allocated = some p)
          ids (allocRun ports ids).1) := by
  constructor
  · intro ports appId p h hp
    simp [allocatePort, h, hp]
  · intro ports ids hnd hfresh
    obtain ⟨h1, h2, h3⟩ := allocRun_fresh ports ids hnd hfresh
    refine ⟨h1, ?_, ?_, h2, h3⟩
    · rw [h1]; exact List.pairwise_lt_range' _ _
    · rw [h1]; exact List.nodup_range' _ _

/-- Witness for C7 at concrete inputs: an allocated id is returned unchanged,
and two fresh allocations from the initial ledger hand out 4000 then 4001. -/
theorem allocatePort_contract_witness :
    allocatePort ⟨4321, [("a", 4000)]⟩ "a" = (4000, ⟨4321, [("a", 4000)]⟩) ∧
    (allocRun ⟨4000, []⟩ ["a", "b"]).1 = [4000, 4001] := by
  constructor
  · exact allocatePort_contract.1 ⟨4321, [("a", 4000)]⟩ "a" 4000 (by decide) (by decide)
  · have h := (allocatePort_contract.2 ⟨4000, []⟩ ["a", "b"] (by decide) (by decide)).1
    rw [h]
    decide

/-! ## Build logs (claim C9) -/

/-- C9: the logs endpoint always answers 200 with the persisted build log as
plain text; when no `{id}-build.log` file exists — the handler never consults
the registry, so unknown ids behave the same — the body is the empty string,
never a 404 or an error. -/
theorem logs_handler_total (fsLogs : List (String × String)) (appId : String) :
    logsHandler fsLogs appId = ⟨200, Body.text (getLogs fsLogs appId)⟩ ∧
    (alookup (appId ++ "-build.log") fsLogs = none → getLogs fsLogs appId = "") ∧
    (∀ c, alookup (appId ++ "-build.log") fsLogs = some c → getLogs fsLogs appId = c) := by
  refine ⟨rfl, ?_, ?_⟩
  · intro h
    simp [getLogs, h]
  · intro c h
    simp [getLogs, h]

/-- Witness for C9: an id with no build log (and not in any registry) gets
`200` with an empty body. -/
theorem logs_handler_total_witness :
    logsHandler [] "ghost" = ⟨200, Body.text ""⟩ ∧ getLogs [] "ghost" = "" := by
  have h := logs_handler_total [] "ghost"
  have h2 := h.2.1 rfl
  exact ⟨by rw [h.1, h2], h2⟩

/-! ## Update frame (claim C10) -/

theorem updateFirst_frame (u : UpdateReq) (appId : String) (l : List App) :
    List.Forall₂ (fun a0 a1 =>
      a1.id = a0.id ∧ a1.name = a0.name ∧ a1.repo = a0.repo ∧
      a1.status = a0.status ∧ a1.lastDeployed = a0.lastDeployed ∧
      a1.createdAt = a0.createdAt ∧ (a0.id ≠ appId → a1 = a0))
      l (updateFirst (fun a => applyUpdates a u) appId l) := by
  induction l with
  | nil => exact List.Forall₂.nil
  | cons a rest ih =>
    by_cases h : a.id = appId
    · simp only [updateFirst, if_pos h]
      refine List.Forall₂.cons ⟨rfl, rfl, rfl, rfl, rfl, rfl, fun hne => absurd h hne⟩ ?_
      exact List.forall₂_same.2 fun x _ => ⟨rfl, rfl, rfl, rfl, rfl, rfl, fun _ => rfl⟩
    · simp only [updateFirst, if_neg h]
      exact List.Forall₂.cons ⟨rfl, rfl, rfl, rfl, rfl, rfl, fun _ => rfl⟩ ih

/-- C10: `updateApp` never touches the port ledger (neither `nextPort` nor the
id→port mapping) or the settings, and rewrites at most the first registry
record with the requested id, preserving its `id`, `name`, `repo`, `status` and
timestamps; all records with a different id are untouched. -/
theorem updateApp_frame (s : ServerState) (appId : String) (u : UpdateReq) :
    (updateApp s appId u).2.ports = s.ports ∧
    (updateApp s appId u).2.baseDomain = s.baseDomain ∧
    List.Forall₂ (fun a0 a1 =>
      a1.id = a0.id ∧ a1.name = a0.name ∧ a1.repo = a0.repo ∧
      a1.status = a0.status ∧ a1.lastDeployed = a0.lastDeployed ∧
      a1.createdAt = a0.createdAt ∧ (a0.id ≠ appId → a1 = a0))
      s.apps (updateApp s appId u).2.apps := by
  cases h : findApp s.apps appId with
  | none =>
    have hu : updateApp s appId u = (none, s) := by
      simp [updateApp, h]
    rw [hu]
    exact ⟨rfl, rfl, List.forall₂_same.2 fun x _ => ⟨rfl, rfl, rfl, rfl, rfl, rfl, fun _ => rfl⟩⟩
  | some a =>
    have hu : updateApp s appId u =
        (findApp (updateFirst (fun b => applyUpdates b u) appId s.apps) appId,
          { s with apps := updateFirst (fun b => applyUpdates b u) appId s.apps }) := by
      simp [updateApp, h]
    rw [hu]
    exact ⟨rfl, rfl, updateFirst_frame u appId s.apps⟩

/-- Witness for C10: updating an application's port field leaves the port
ledger byte-for-byte identical. -/
theorem updateApp_frame_witness :
    (updateApp ⟨[app1], ⟨4001, [("app1", 4000)]⟩, ""⟩ "app1"
        { emptyUpdate with port := some 9999 }).2.ports = ⟨4001, [("app1", 4000)]⟩ :=
  (updateApp_frame ⟨[app1], ⟨4001, [("app1", 4000)]⟩, ""⟩ "app1"
    { emptyUpdate with port := some 9999 }).1

/-! ## Route publisher (claim C8) -/

theorem updateCaddyConfig_filter (apps : List App) :
    updateCaddyConfig apps =
      "# Auto-generated app configurations\n\n" ++ concatBlocks (caddyApps apps) := by
  suffices h : ∀ (l : List App) (init : String),
      l.foldl (fun acc a => if a.domain ≠ "" ∧ a.port ≠ 0 then acc ++ caddyBlock a else acc)
          init = init ++ concatBlocks (caddyApps l) by
    exact h apps _
  intro l
  induction l with
  | nil =>
    intro init
    simp [caddyApps, concatBlocks]
  | cons a rest ih =>
    intro init
    by_cases hc : a.domain ≠ "" ∧ a.port ≠ 0
    · have hb : (a.domain != "" && a.port != 0) = true := by
        simp [bne_iff_ne, hc.1, hc.2]
      simp only [List.foldl_cons, if_pos hc, caddyApps, List.filter_cons, hb, if_pos,
        concatBlocks]
      rw [ih (init ++ caddyBlock a), String.append_assoc]
      rfl
    · have hb : (a.domain != "" && a.port != 0) = false := by
        rcases not_and_or.1 hc with h | h
        · rw [not_not] at h
          simp [h]
        · rw [not_not] at h
          simp [h]
      simp only [List.foldl_cons, if_neg hc, caddyApps, List.filter_cons, hb]
      exact ih init

/-- C8 (amended): the generated route configuration contains a block for an
application if and only if it is in the registry with a non-empty `domain` and
a nonzero (truthy) port — not a positive one: negative ports also pass the
truthiness test — and the generated fragment is exactly the header followed by
the blocks of those applications. -/
theorem caddy_route_iff (apps : List App) (a : App) :
    (a ∈ caddyApps apps ↔ a ∈ apps ∧ a.domain ≠ "" ∧ a.port ≠ 0) ∧
    updateCaddyConfig apps =
      "# Auto-generated app configurations\n\n" ++ concatBlocks (caddyApps apps) := by
  refine ⟨?_, updateCaddyConfig_filter apps⟩
  simp [caddyApps, List.mem_filter, bne_iff_ne, and_assoc]

/-- Witness for C8 (amended) at a concrete registry. -/
theorem caddy_route_iff_witness : negPortApp ∈ caddyApps [negPortApp] :=
  (caddy_route_iff [negPortApp] negPortApp).1.mpr
    ⟨List.mem_singleton.2 rfl, by decide, by decide⟩

/-- C8 counterexample: an application whose port was set to `-1` through the
update API (a reachable registry state) still contributes a route block to the
generated configuration, although its port is not positive — refuting the
"if and only if … positive port" reading. -/
theorem caddy_negative_port_emitted :
    Reach negPortState ∧
    negPortState.apps = [negPortApp] ∧
    negPortApp ∈ caddyApps [negPortApp] ∧
    ¬(0 < negPortApp.port) ∧
    updateCaddyConfig [negPortApp] =
      "# Auto-generated app configurations\n\n" ++ caddyBlock negPortApp := by
  refine ⟨?_, by decide, by decide, by decide, rfl⟩
  exact Reach.update _ "x" _ (Reach.create _ _ _ Reach.init)

/-! ## Creation: slug ids and the duplicate check (claim C6) -/

/-- C6: for every valid creation request the returned id is the deterministic
slug of the name and the record is appended; a second creation whose name
slugifies to an existing id fails with the duplicate-name error (the spec's
`Conflict`, "duplicate id — 400/409") and leaves registry and ledger
unchanged. -/
theorem createApp_slug_conflict :
    (∀ (s : ServerState) (d : CreateReq) (now : String),
        d.name ≠ "" → d.repo ≠ "" → findApp s.apps (slugify d.name) = none →
        ∃ app, (createApp s d now).1 = ⟨202, Body.msgApp "Deployment started" app⟩ ∧
          app.id = slugify d.name ∧
          (createApp s d now).2.apps = s.apps ++ [app]) ∧
    (∀ (s : ServerState) (d : CreateReq) (now : String) (a : App),
        d.name ≠ "" → d.repo ≠ "" → findApp s.apps (slugify d.name) = some a →
        (createApp s d now).1 = ⟨400, Body.err "App with this name already exists"⟩ ∧
        (createApp s d now).2 = s) := by
  constructor
  · intro s d now hn hr hfind
    have hcond : ¬(d.name = "" ∨ d.repo = "") := by
      rintro (h | h)
      exacts [hn h, hr h]
    have hsome : (findApp s.apps (slugify d.name)).isSome = false := by
      rw [hfind]
      rfl
    unfold createApp
    rw [if_neg hcond]
    rw [if_neg (by rw [hsome]; exact Bool.false_ne_true)]
    exact ⟨_, rfl, rfl, rfl⟩
  · intro s d now a hn hr hfind
    have hcond : ¬(d.name = "" ∨ d.repo = "") := by
      rintro (h | h)
      exacts [hn h, hr h]
    have hsome : (findApp s.apps (slugify d.name)).isSome = true := by
      rw [hfind]
      rfl
    unfold createApp
    rw [if_neg hcond]
    rw [if_pos hsome]
    exact ⟨rfl, rfl⟩

/-- Witness for C6: creating "My App!" yields id `my-app`; creating "my##app"
afterwards (the same slug) fails with the duplicate error and changes
nothing. -/
theorem createApp_slug_conflict_witness :
    (∃ app, (createApp initialState (mkCreateReq "My App!" "r" none) "t").1 =
        ⟨202, Body.msgApp "Deployment started" app⟩ ∧
        app.id = slugify "My App!" ∧
        (createApp initialState (mkCreateReq "My App!" "r" none) "t").2.apps =
          initialState.apps ++ [app]) ∧
    ((createApp (createApp initialState (mkCreateReq "My App!" "r" none) "t").2
        (mkCreateReq "my##app" "r2" none) "t").1 =
      ⟨400, Body.err "App with this name already exists"⟩ ∧
      (createApp (createApp initialState (mkCreateReq "My App!" "r" none) "t").2
        (mkCreateReq "my##app" "r2" none) "t").2 =
        (createApp initialState (mkCreateReq "My App!" "r" none) "t").2) := by
  constructor
  · exact createApp_slug_conflict.1 initialState (mkCreateReq "My App!" "r" none) "t"
      (by decide) (by decide) (by decide)
  · exact createApp_slug_conflict.2
      (createApp initialState (mkCreateReq "My App!" "r" none) "t").2
      (mkCreateReq "my##app" "r2" none) "t"
      ⟨"my-app", "My App!", "r", "main", "building", 4000, "my-app.localhost",
        "npm install && npm run build", "npm start", [], "t", "t"⟩
      (by decide) (by decide) (by decide)

/-! ## Webhook matching (claim C3) -/

theorem find_first_unique {α : Type} {p : α → Bool} {l : List α} {a : α}
    (ha : a ∈ l) (hpa : p a = true) (huniq : ∀ b ∈ l, p b = true → b = a) :
    l.find? p = some a := by
  induction l with
  | nil => cases ha
  | cons x rest ih =>
    by_cases hx : p x = true
    · have hxa : x = a := huniq x (List.mem_cons_self x rest) hx
      subst hxa
      simp [List.find?_cons_of_pos _ hx]
    · have hne : a ≠ x := fun he => hx (he ▸ hpa)
      have ha' : a ∈ rest := by
        rcases List.mem_cons.1 ha with h | h
        · exact absurd h hne
        · exact h
      rw [List.find?_cons_of_neg _ hx]
      exact ih ha' fun b hb hpb => huniq b (List.mem_cons_of_mem _ hb) hpb

/-- C3 (amended): the handler selects the FIRST registry entry whose repository
URL matches the payload (it never looks further), deploys exactly that entry
when its branch equals the pushed branch, answers "No matching app found"
otherwise, and the response status is 200 in every case — so the claim as
stated holds whenever at most one entry matches the repository URL. -/
theorem webhook_match_contract :
    (∀ (apps : List App) (p : Payload),
        (webhookResp (webhookDecision apps p)).status = 200) ∧
    (∀ (apps : List App) (p : Payload) (a : App),
        a ∈ apps → repoMatches a p = true →
        (∀ b ∈ apps, repoMatches b p = true → b = a) →
        ((strEqOpt a.branch (pushedBranch p) = true →
            webhookDecision apps p = WebhookOutcome.deploy a ∧
            webhookResp (webhookDecision apps p) =
              ⟨200, Body.msgApp "Deployment started" a⟩) ∧
         (strEqOpt a.branch (pushedBranch p) = false →
            webhookDecision apps p = WebhookOutcome.noMatch ∧
            webhookResp (webhookDecision apps p) =
              ⟨200, Body.msg "No matching app found"⟩))) ∧
    (∀ (apps : List App) (p : Payload),
        (∀ b ∈ apps, repoMatches b p = false) →
        webhookDecision apps p = WebhookOutcome.noMatch) := by
  refine ⟨?_, ?_, ?_⟩
  · intro apps p
    cases webhookDecision apps p <;> rfl
  · intro apps p a ha hmatch huniq
    have hfind : apps.find? (fun b => repoMatches b p) = some a :=
      find_first_unique ha hmatch huniq
    constructor
    · intro hb
      have hd : webhookDecision apps p = WebhookOutcome.deploy a := by
        unfold webhookDecision
        rw [hfind]
        show (if strEqOpt a.branch (pushedBranch p) = true then WebhookOutcome.deploy a
          else WebhookOutcome.noMatch) = WebhookOutcome.deploy a
        rw [if_pos hb]
      exact ⟨hd, by rw [hd]; rfl⟩
    · intro hb
      have hd : webhookDecision apps p = WebhookOutcome.noMatch := by
        unfold webhookDecision
        rw [hfind]
        show (if strEqOpt a.branch (pushedBranch p) = true then WebhookOutcome.deploy a
          else WebhookOutcome.noMatch) = WebhookOutcome.noMatch
        rw [if_neg (by rw [hb]; exact Bool.false_ne_true)]
      exact ⟨hd, by rw [hd]; rfl⟩
  · intro apps p hall
    have hfind : apps.find? (fun b => repoMatches b p) = none :=
      List.find?_eq_none.2 fun b hb => by rw [hall b hb]; exact Bool.false_ne_true
    unfold webhookDecision
    rw [hfind]

/-- Witness for C3 (amended): a single matching entry on the pushed branch is
deployed; an empty registry yields no match. -/
theorem webhook_match_contract_witness :
    webhookDecision [appOnMain] payloadMain = WebhookOutcome.deploy appOnMain ∧
    webhookDecision [] payloadMain = WebhookOutcome.noMatch := by
  constructor
  · exact ((webhook_match_contract.2.1 [appOnMain] payloadMain appOnMain
      (by decide) (by decide) (by decide)).1 (by decide)).1
  · exact webhook_match_contract.2.2 [] payloadMain (by simp)

/-- C3 counterexample: two registry entries share a repository URL (branches
`dev` and `main`); a push on `main` matches the second entry, yet the handler
answers "No matching app found" and triggers nothing, because `find` stopped at
the first entry. -/
theorem webhook_second_entry_missed :
    webhookDecision [appOnDev, appOnMain] payloadMain = WebhookOutcome.noMatch ∧
    appOnMain ∈ [appOnDev, appOnMain] ∧
    repoMatches appOnMain payloadMain = true ∧
    strEqOpt appOnMain.branch (pushedBranch payloadMain) = true := by decide

/-! ## Port uniqueness across reachable states (claim C2) -/

theorem updateApp_ports (s : ServerState) (appId : String) (u : UpdateReq) :
    (updateApp s appId u).2.ports = s.ports := by
  cases h : findApp s.apps appId with
  | none => simp [updateApp, h]
  | some a => simp [updateApp, h]

theorem PortsWF_allocatePort (ports : Ports) (appId : String) (h : PortsWF ports) :
    PortsWF (allocatePort ports appId).2 := by
  obtain ⟨hnp, hkeys, hvals, hbound⟩ := h
  cases hl : alookup appId ports.allocated with
  | some p =>
    have hp : 0 < p := (hbound _ (alookup_mem hl)).1
    have hpne : p ≠ 0 := Nat.pos_iff_ne_zero.mp hp
    rw [show (allocatePort ports appId).2 = ports by simp [allocatePort, hl, hpne]]
    exact ⟨hnp, hkeys, hvals, hbound⟩
  | none =>
    have hstep : (allocatePort ports appId).2 =
        ⟨ports.nextPort + 1, ports.allocated ++ [(appId, ports.nextPort)]⟩ := by
      rw [allocatePort_fresh ports appId hl]
      show (⟨ports.nextPort + 1, ainsert appId ports.nextPort ports.allocated⟩ : Ports) = _
      rw [ainsert_not_key (α := Nat) ports.nextPort hl]
    rw [hstep]
    have hnotkey := alookup_none_not_key hl
    refine ⟨?_, ?_, ?_, ?_⟩
    · show 0 < ports.nextPort + 1
      omega
    · show ((ports.allocated ++ [(appId, ports.nextPort)]).map Prod.fst).Nodup
      rw [List.map_append, List.nodup_append]
      refine ⟨hkeys, List.nodup_singleton _, ?_⟩
      intro x hx hx2
      rcases List.mem_map.1 hx with ⟨kv, hkv, rfl⟩
      have hxe : kv.1 = appId := by simpa using hx2
      exact hnotkey kv hkv hxe
    · show ((ports.allocated ++ [(appId, ports.nextPort)]).map Prod.snd).Nodup
      rw [List.map_append, List.nodup_append]
      refine ⟨hvals, List.nodup_singleton _, ?_⟩
      intro x hx hx2
      rcases List.mem_map.1 hx with ⟨kv, hkv, rfl⟩
      have hxe : kv.2 = ports.nextPort := by simpa using hx2
      have := (hbound kv hkv).2
      omega
    · intro kv hkv
      show 0 < kv.2 ∧ kv.2 < ports.nextPort + 1
      rcases List.mem_append.1 hkv with hm | hm
      · have := hbound kv hm
        omega
      · rcases List.mem_singleton.1 hm with rfl
        show 0 < ports.nextPort ∧ ports.nextPort < ports.nextPort + 1
        omega

theorem PortsWF_releasePort (ports : Ports) (appId : String) (h : PortsWF ports) :
    PortsWF (releasePort ports appId) := by
  obtain ⟨hnp, hkeys, hvals, hbound⟩ := h
  cases hl : alookup appId ports.allocated with
  | none =>
    have hrel : releasePort ports appId = ports := by
      unfold releasePort
      rw [hl]
    rw [hrel]
    exact ⟨hnp, hkeys, hvals, hbound⟩
  | some p =>
    by_cases hp : p ≠ 0
    · have hrel : releasePort ports appId =
          ⟨ports.nextPort, aremove appId ports.allocated⟩ := by
        unfold releasePort
        rw [hl]
        show (if p ≠ 0 then (⟨ports.nextPort, aremove appId ports.allocated⟩ : Ports)
          else ports) = _
        rw [if_pos hp]
      rw [hrel]
      have hsub := aremove_sublist (α := Nat) appId ports.allocated
      refine ⟨hnp, ?_, ?_, ?_⟩
      · show ((aremove appId ports.allocated).map Prod.fst).Nodup
        exact List.Nodup.sublist (hsub.map _) hkeys
      · show ((aremove appId ports.allocated).map Prod.snd).Nodup
        exact List.Nodup.sublist (hsub.map _) hvals
      · intro kv hkv
        show 0 < kv.2 ∧ kv.2 < ports.nextPort
        exact hbound kv (hsub.subset hkv)
    · have hrel : releasePort ports appId = ports := by
        unfold releasePort
        rw [hl]
        show (if p ≠ 0 then (⟨ports.nextPort, aremove appId ports.allocated⟩ : Ports)
          else ports) = _
        rw [if_neg hp]
      rw [hrel]
      exact ⟨hnp, hkeys, hvals, hbound⟩

theorem createApp_ports (s : ServerState) (d : CreateReq) (now : String) :
    (createApp s d now).2.ports = s.ports ∨
      (createApp s d now).2.ports = (allocatePort s.ports (slugify d.name)).2 := by
  unfold createApp
  by_cases h1 : d.name = "" ∨ d.repo = ""
  · rw [if_pos h1]
    exact Or.inl rfl
  · rw [if_neg h1]
    by_cases h2 : (findApp s.apps (slugify d.name)).isSome = true
    · rw [if_pos h2]
      exact Or.inl rfl
    · rw [if_neg h2]
      cases he : explicitPort d.port with
      | some p =>
        refine Or.inl ?_
        simp only [he]
      | none =>
        refine Or.inr ?_
        simp only [he]

theorem Reach_PortsWF (s : ServerState) (h : Reach s) : PortsWF s.ports := by
  induction h with
  | init =>
    unfold PortsWF
    decide
  | create s d now hr ih =>
    rcases createApp_ports s d now with h | h
    · rw [h]
      exact ih
    · rw [h]
      exact PortsWF_allocatePort _ _ ih
  | update s appId u hr ih =>
    rw [updateApp_ports s appId u]
    exact ih
  | del s appId hr ih => exact PortsWF_releasePort _ _ ih
  | building s appId hr ih => exact ih
  | cancelled s appId hr ih => exact ih
  | closed s appId ts e hr ih => exact ih
  | started s appId ok hr ih => exact ih
  | stopOne s appId hr ih => exact ih

/-- C2 (amended): in every reachable state the PORT LEDGER is injective — two
distinct ids never map to the same port, so auto-allocated ports are pairwise
distinct — but the registry records' `port` fields can coincide when ports are
supplied explicitly at creation or set through the update API (neither path
checks uniqueness). -/
theorem ledger_ports_injective (s : ServerState) (hs : Reach s) :
    ∀ (i j : String) (p q : Nat),
      alookup i s.ports.allocated = some p →
      alookup j s.ports.allocated = some q →
      i ≠ j → p ≠ q := by
  intro i j p q hi hj hij heq
  obtain ⟨-, -, hvals, -⟩ := Reach_PortsWF s hs
  subst heq
  have h2 := List.inj_on_of_nodup_map hvals (alookup_mem hi) (alookup_mem hj) rfl
  exact hij (congrArg Prod.fst h2)

/-- Witness for C2 (amended): after two auto-allocated creations the ledger
maps the two ids to 4000 and 4001, and the theorem yields their distinctness. -/
theorem ledger_ports_injective_witness :
    Reach autoPortState ∧
    alookup "aa" autoPortState.ports.allocated = some 4000 ∧
    alookup "bb" autoPortState.ports.allocated = some 4001 ∧
    (4000 : Nat) ≠ 4001 := by
  refine ⟨?_, by decide, by decide, ?_⟩
  · exact Reach.create _ _ _ (Reach.create _ _ _ Reach.init)
  · exact ledger_ports_injective autoPortState
      (Reach.create _ _ _ (Reach.create _ _ _ Reach.init))
      "aa" "bb" 4000 4001 (by decide) (by decide) (by decide)

/-- C2 counterexample: two creation requests carrying the same explicit port
`5000` both succeed; the resulting reachable registry holds two records with
distinct ids (`aa`, `bb`) and identical `port` fields. -/
theorem shared_explicit_port_reachable :
    Reach sharedPortState ∧
    (findApp sharedPortState.apps "aa").map App.port = some 5000 ∧
    (findApp sharedPortState.apps "bb").map App.port = some 5000 ∧
    "aa" ≠ "bb" := by
  refine ⟨?_, by decide, by decide, by decide⟩
  exact Reach.create _ _ _ (Reach.create _ _ _ Reach.init)

/-! ## Transition-system helper lemmas -/

theorem cancelBuildStep_none (w : World) (appId : String)
    (h : alookup appId w.activeBuilds = none) : cancelBuildStep w appId = (false, w) := by
  unfold cancelBuildStep
  rw [h]

theorem cancelBuildStep_some (w : World) (appId : String) (pid : Nat)
    (h : alookup appId w.activeBuilds = some pid) :
    cancelBuildStep w appId = (true,
      { w with
        procs := mapProc w.procs pid (fun p => { p with state := deliverSigterm p.state })
        timers := w.timers ++ [⟨appId, pid, w.now + 5000⟩]
        srv := { w.srv with apps := setAppStatus w.srv.apps appId "stopped" } }) := by
  unfold cancelBuildStep
  rw [h]

theorem timerCallback_hit (w : World) (t : Timer)
    (h : (alookup t.appId w.activeBuilds).isSome = true) :
    timerCallback w t =
      { w with
        timers := eraseTimer t w.timers
        procs := mapProc w.procs t.pid (fun p => { p with state := deliverSigkill p.state })
        activeBuilds := aremove t.appId w.activeBuilds } := by
  unfold timerCallback
  rw [if_pos h]

theorem timerCallback_miss (w : World) (t : Timer)
    (h : (alookup t.appId w.activeBuilds).isSome = false) :
    timerCallback w t = { w with timers := eraseTimer t w.timers } := by
  unfold timerCallback
  rw [if_neg (by rw [h]; exact Bool.false_ne_true)]

theorem closeCallback_exited (w : World) (pid pid0 : Nat) (aid : String) (e : ExitKind)
    (cdp : Bool) (hf : findProc w.procs pid = some ⟨pid0, aid, ProcState.exited e, cdp⟩) :
    closeCallback w pid =
      { w with
        procs := mapProc w.procs pid (fun q => { q with closeDone := true })
        activeBuilds := aremove aid w.activeBuilds
        srv := { w.srv with
          apps := setAppStatusTs w.srv.apps aid (closeStatusOf e) (toString w.now) } } := by
  unfold closeCallback
  rw [hf]

theorem mem_eraseTimer {t t' : Timer} {l : List Timer} (h : t' ∈ eraseTimer t l) : t' ∈ l := by
  induction l with
  | nil => simpa [eraseTimer] using h
  | cons x rest ih =>
    by_cases hx : x = t
    · rw [eraseTimer, if_pos hx] at h
      exact List.mem_cons_of_mem _ h
    · rw [eraseTimer, if_neg hx] at h
      rcases List.mem_cons.1 h with rfl | hm
      · exact List.mem_cons_self _ _
      · exact List.mem_cons_of_mem _ (ih hm)

theorem enabled_procExitTerm (w : World) (pid : Nat)
    (he : enabled w (Ev.procExitTerm pid) = true) :
    ∃ p, findProc w.procs pid = some p ∧ p.state = ProcState.sigterm := by
  have he' : (match findProc w.procs pid with
      | some p => decide (p.state = ProcState.sigterm)
      | none => false) = true := he
  cases hf : findProc w.procs pid with
  | none =>
    rw [hf] at he'
    exact absurd he' Bool.false_ne_true
  | some p =>
    rw [hf] at he'
    exact ⟨p, rfl, of_decide_eq_true he'⟩

theorem enabled_procExitNormal (w : World) (pid : Nat) (code : Int)
    (he : enabled w (Ev.procExitNormal pid code) = true) :
    ∃ p, findProc w.procs pid = some p ∧ p.state = ProcState.running := by
  have he' : (match findProc w.procs pid with
      | some p => decide (p.state = ProcState.running)
      | none => false) = true := he
  cases hf : findProc w.procs pid with
  | none =>
    rw [hf] at he'
    exact absurd he' Bool.false_ne_true
  | some p =>
    rw [hf] at he'
    exact ⟨p, rfl, of_decide_eq_true he'⟩

theorem enabled_timerFire (w : World) (t : Timer)
    (he : enabled w (Ev.timerFire t) = true) :
    t ∈ w.timers ∧ t.deadline ≤ w.now := by
  have he' : (decide (t ∈ w.timers) && decide (t.deadline ≤ w.now)) = true := he
  rw [Bool.and_eq_true] at he'
  exact ⟨of_decide_eq_true he'.1, of_decide_eq_true he'.2⟩

theorem enabled_closeCb (w : World) (pid : Nat)
    (he : enabled w (Ev.closeCb pid) = true) :
    ∃ p e, findProc w.procs pid = some p ∧ p.state = ProcState.exited e ∧
      p.closeDone = false := by
  have he' : (match findProc w.procs pid with
      | some p =>
        (match p.state with
          | ProcState.exited _ => true
          | _ => false) && !p.closeDone
      | none => false) = true := he
  cases hf : findProc w.procs pid with
  | none =>
    rw [hf] at he'
    exact absurd he' Bool.false_ne_true
  | some p =>
    rw [hf] at he'
    have he2 : ((match p.state with
        | ProcState.exited _ => true
        | _ => false) && !p.closeDone) = true := he'
    rw [Bool.and_eq_true] at he2
    have hcd : p.closeDone = false := by
      cases hcd : p.closeDone
      · rfl
      · rw [hcd] at he2
        exact absurd he2.2 (by decide)
    cases hst : p.state with
    | running =>
      rw [hst] at he2
      exact absurd he2.1 Bool.false_ne_true
    | sigterm =>
      rw [hst] at he2
      exact absurd he2.1 Bool.false_ne_true
    | exited e => exact ⟨p, e, rfl, hst, hcd⟩

theorem findProc_one_inv {st : ProcState} {cd : Bool} {pid : Nat} {p : Proc}
    (h : findProc [⟨1, "app1", st, cd⟩] pid = some p) :
    pid = 1 ∧ p = ⟨1, "app1", st, cd⟩ := by
  by_cases h1 : (1 : Nat) = pid
  · refine ⟨h1.symm, ?_⟩
    subst h1
    have hc : findProc [(⟨1, "app1", st, cd⟩ : Proc)] 1 = some ⟨1, "app1", st, cd⟩ := rfl
    rw [hc] at h
    exact (Option.some_inj.1 h).symm
  · have hc : findProc [(⟨1, "app1", st, cd⟩ : Proc)] pid = none := by
      unfold findProc
      rw [List.find?_cons_of_neg _ (by simpa using h1), List.find?_nil]
    rw [hc] at h
    cases h

theorem isExited_one (w : World) (st : ProcState) (cd : Bool)
    (hprocs : w.procs = [⟨1, "app1", st, cd⟩]) :
    (isExited w 1 = true ↔ ∃ ex, st = ProcState.exited ex) := by
  unfold isExited
  rw [hprocs]
  have hc : findProc [(⟨1, "app1", st, cd⟩ : Proc)] 1 = some ⟨1, "app1", st, cd⟩ := rfl
  rw [hc]
  cases st with
  | running => simp
  | sigterm => simp
  | exited e =>
    simp only [eq_self_iff_true, true_iff]
    exact ⟨e, rfl⟩

/-! ## Cancel with no active build (claim C5) -/

/-- C5 (amended): a cancel request for an id with no active build is a
complete no-op on the state — registry, ledger, processes and timers are all
returned unchanged — but it is reported as an ERROR, not a success: the
handler answers `400 {error: "No active build to cancel"}`. -/
theorem cancel_no_build_noop (w : World) (appId : String)
    (h : alookup appId w.activeBuilds = none) :
    cancelHandler w appId = (⟨400, Body.err "No active build to cancel"⟩, w) := by
  unfold cancelHandler
  rw [cancelBuildStep_none w appId h]
  rfl

/-- Witness for C5 (amended) at a concrete idle world. -/
theorem cancel_no_build_noop_witness :
    alookup "app1" wIdle.activeBuilds = none ∧
    cancelHandler wIdle "app1" = (⟨400, Body.err "No active build to cancel"⟩, wIdle) :=
  ⟨rfl, cancel_no_build_noop wIdle "app1" rfl⟩

/-- C5 counterexample: with no active build for `app1` the cancel endpoint
answers status 400 with an `{error: ...}` body — an error response, not the
success the claim describes (the state is indeed unchanged). -/
theorem cancel_no_build_is_error :
    (cancelHandler wIdle "app1").1.status = 400 ∧
    (cancelHandler wIdle "app1").1.body = Body.err "No active build to cancel" ∧
    (cancelHandler wIdle "app1").2 = wIdle := by decide

/-! ## Cancellation contract (claim C4) -/

theorem InvCancel_step (w : World) (e : Ev) (hw : InvCancel w)
    (he : enabled w e = true) (hd : ∀ a, e ≠ Ev.deploy a) :
    InvCancel (stepEv w e) := by
  obtain ⟨⟨st, cd, hprocs⟩, hab, htimers, hlast⟩ := hw
  cases e with
  | deploy a => exact absurd rfl (hd a)
  | tick d =>
    refine ⟨⟨st, cd, hprocs⟩, hab, htimers, ?_⟩
    rcases hlast with hex | ⟨hmem, hnow, hlook⟩
    · exact Or.inl hex
    · refine Or.inr ⟨hmem, ?_, hlook⟩
      have he' : w.timers.all (fun t => decide (w.now + d ≤ t.deadline)) = true := he
      have hle := of_decide_eq_true (List.all_eq_true.1 he' _ hmem)
      exact hle
  | cancelReq appId =>
    show InvCancel (cancelBuildStep w appId).2
    rcases hab with hab | hab
    · by_cases hid : appId = "app1"
      · subst hid
        have hlook : alookup "app1" w.activeBuilds = some 1 := by
          rw [hab]
          rfl
        have hpr : (cancelBuildStep w "app1").2.procs =
            [⟨1, "app1", deliverSigterm st, cd⟩] := by
          rw [cancelBuildStep_some w "app1" 1 hlook]
          show mapProc w.procs 1 _ = _
          rw [hprocs]
          rfl
        have htm : (cancelBuildStep w "app1").2.timers =
            w.timers ++ [⟨"app1", 1, w.now + 5000⟩] := by
          rw [cancelBuildStep_some w "app1" 1 hlook]
        have hac : (cancelBuildStep w "app1").2.activeBuilds = w.activeBuilds := by
          rw [cancelBuildStep_some w "app1" 1 hlook]
        have hnw : (cancelBuildStep w "app1").2.now = w.now := by
          rw [cancelBuildStep_some w "app1" 1 hlook]
        refine ⟨⟨deliverSigterm st, cd, hpr⟩, ?_, ?_, ?_⟩
        · rw [hac]
          exact Or.inl hab
        · intro t ht
          rw [htm] at ht
          rcases List.mem_append.1 ht with hm | hm
          · exact htimers t hm
          · rcases List.mem_singleton.1 hm with rfl
            exact ⟨rfl, rfl⟩
        · rcases hlast with hex | ⟨hmem, hnow, hlook2⟩
          · refine Or.inl ((isExited_one _ _ _ hpr).2 ?_)
            obtain ⟨ex, hstx⟩ := (isExited_one w st cd hprocs).1 hex
            refine ⟨ex, ?_⟩
            rw [hstx]
            rfl
          · refine Or.inr ⟨?_, ?_, ?_⟩
            · rw [htm]
              exact List.mem_append_left _ hmem
            · rw [hnw]
              exact hnow
            · rw [hac]
              exact hlook2
      · have hlook : alookup appId w.activeBuilds = none := by
          rw [hab]
          show (if "app1" = appId then some 1 else alookup appId []) = none
          rw [if_neg fun hcontra => hid hcontra.symm]
          rfl
        rw [cancelBuildStep_none w appId hlook]
        exact ⟨⟨st, cd, hprocs⟩, Or.inl hab, htimers, hlast⟩
    · have hlook : alookup appId w.activeBuilds = none := by
        rw [hab]
        rfl
      rw [cancelBuildStep_none w appId hlook]
      exact ⟨⟨st, cd, hprocs⟩, Or.inr hab, htimers, hlast⟩
  | procExitTerm pid =>
    obtain ⟨p, hf, hstp⟩ := enabled_procExitTerm w pid he
    rw [hprocs] at hf
    obtain ⟨rfl, rfl⟩ := findProc_one_inv hf
    have hstx : st = ProcState.sigterm := hstp
    subst hstx
    have hpr : (stepEv w (Ev.procExitTerm 1)).procs =
        [⟨1, "app1", ProcState.exited (ExitKind.bySignal Sig.term), cd⟩] := by
      show mapProc w.procs 1 _ = _
      rw [hprocs]
      rfl
    exact ⟨⟨_, cd, hpr⟩, hab, htimers, Or.inl ((isExited_one _ _ _ hpr).2 ⟨_, rfl⟩)⟩
  | procExitNormal pid code =>
    obtain ⟨p, hf, hstp⟩ := enabled_procExitNormal w pid code he
    rw [hprocs] at hf
    obtain ⟨rfl, rfl⟩ := findProc_one_inv hf
    have hstx : st = ProcState.running := hstp
    subst hstx
    have hpr : (stepEv w (Ev.procExitNormal 1 code)).procs =
        [⟨1, "app1", ProcState.exited (ExitKind.normal code), cd⟩] := by
      show mapProc w.procs 1 _ = _
      rw [hprocs]
      rfl
    exact ⟨⟨_, cd, hpr⟩, hab, htimers, Or.inl ((isExited_one _ _ _ hpr).2 ⟨_, rfl⟩)⟩
  | timerFire t =>
    obtain ⟨hmem, hdl⟩ := enabled_timerFire w t he
    obtain ⟨hta, htp⟩ := htimers t hmem
    show InvCancel (timerCallback w t)
    rcases hab with hab | hab
    · have hsome : (alookup t.appId w.activeBuilds).isSome = true := by
        rw [hta, hab]
        rfl
      have htc := timerCallback_hit w t hsome
      have hpr : (timerCallback w t).procs = [⟨1, "app1", deliverSigkill st, cd⟩] := by
        rw [htc, htp, hprocs]
        rfl
      have hactc : (timerCallback w t).activeBuilds = [] := by
        rw [htc, hta, hab]
        rfl
      have htmc : (timerCallback w t).timers = eraseTimer t w.timers := by rw [htc]
      refine ⟨⟨_, cd, hpr⟩, Or.inr hactc, ?_, ?_⟩
      · intro t2 ht2
        rw [htmc] at ht2
        exact htimers t2 (mem_eraseTimer ht2)
      · refine Or.inl ((isExited_one _ _ _ hpr).2 ?_)
        cases st with
        | running => exact ⟨_, rfl⟩
        | sigterm => exact ⟨_, rfl⟩
        | exited ex => exact ⟨ex, rfl⟩
    · have hsome : (alookup t.appId w.activeBuilds).isSome = false := by
        rw [hab]
        rfl
      have htc := timerCallback_miss w t hsome
      have hpr2 : (timerCallback w t).procs = [⟨1, "app1", st, cd⟩] := by
        rw [htc]
        exact hprocs
      refine ⟨⟨st, cd, hpr2⟩, ?_, ?_, ?_⟩
      · rw [htc]
        exact Or.inr hab
      · intro t2 ht2
        rw [htc] at ht2
        exact htimers t2 (mem_eraseTimer ht2)
      · rcases hlast with hex | ⟨hmem2, hnow2, hlook2⟩
        · refine Or.inl ?_
          obtain ⟨ex, hstx⟩ := (isExited_one w st cd hprocs).1 hex
          exact (isExited_one _ _ _ hpr2).2 ⟨ex, hstx⟩
        · rw [hab] at hlook2
          exact absurd hlook2 (by decide)
  | closeCb pid =>
    obtain ⟨p, e0, hf, hstp, hcdp⟩ := enabled_closeCb w pid he
    rw [hprocs] at hf
    obtain ⟨rfl, rfl⟩ := findProc_one_inv hf
    have hstx : st = ProcState.exited e0 := hstp
    subst hstx
    have hcdx : cd = false := hcdp
    subst hcdx
    show InvCancel (closeCallback w 1)
    have hfc : findProc w.procs 1 = some ⟨1, "app1", ProcState.exited e0, false⟩ := by
      rw [hprocs]
      rfl
    have hcc := closeCallback_exited w 1 1 "app1" e0 false hfc
    have hpr : (closeCallback w 1).procs = [⟨1, "app1", ProcState.exited e0, true⟩] := by
      rw [hcc, hprocs]
      rfl
    have hacc : (closeCallback w 1).activeBuilds = [] := by
      rw [hcc]
      rcases hab with hab | hab
      · rw [hab]
        rfl
      · rw [hab]
        rfl
    have htcc : (closeCallback w 1).timers = w.timers := by rw [hcc]
    refine ⟨⟨_, true, hpr⟩, Or.inr hacc, ?_,
      Or.inl ((isExited_one _ _ _ hpr).2 ⟨e0, rfl⟩)⟩
    intro t2 ht2
    rw [htcc] at ht2
    exact htimers t2 ht2


theorem InvCancel_steps (w : World) (evs : List Ev) (w' : World)
    (h : Steps w evs w') (hw : InvCancel w) (hd : noDeploys evs) : InvCancel w' := by
  induction h with
  | nil w => exact hw
  | cons w e evs w' he hs ih =>
    refine ih ?_ ?_
    · exact InvCancel_step w e hw he fun a => hd e (List.mem_cons_self _ _) a
    · intro e' he' a
      exact hd e' (List.mem_cons_of_mem _ he') a

theorem InvCancel_wCancelled : InvCancel wCancelled := by
  refine ⟨⟨ProcState.sigterm, false, by decide⟩, Or.inl (by decide), by decide,
    Or.inr ⟨by decide, by decide, by decide⟩⟩

/-- C4 (amended): for an id with an active build, cancel delivers `SIGTERM` to
the in-flight process, schedules a force-kill timer for 5 seconds later, and
sets the registry status to `stopped` IMMEDIATELY — before the process has
exited — not only once it has exited; in every deploy-free continuation the
process is guaranteed to have exited (by the signal, or force-killed by the
timer) by the time the clock passes the 5-second grace deadline, even if it
ignores the graceful signal; and when the process exits by a termination
signal, the close handler records status `stopped` again. -/
theorem cancel_build_contract :
    (∀ (w : World) (appId : String) (pid : Nat),
        alookup appId w.activeBuilds = some pid →
        (cancelBuildStep w appId).1 = true ∧
        (cancelBuildStep w appId).2.procs =
          mapProc w.procs pid (fun p => { p with state := deliverSigterm p.state }) ∧
        (⟨appId, pid, w.now + 5000⟩ : Timer) ∈ (cancelBuildStep w appId).2.timers ∧
        (cancelBuildStep w appId).2.srv.apps = setAppStatus w.srv.apps appId "stopped") ∧
    (∀ (evs : List Ev) (w' : World),
        Steps wCancelled evs w' → noDeploys evs → 5000 < w'.now →
        isExited w' 1 = true) ∧
    (∀ (w : World) (pid : Nat) (p : Proc) (s : Sig),
        findProc w.procs pid = some p → p.state = ProcState.exited (.bySignal s) →
        (closeCallback w pid).srv.apps =
          setAppStatusTs w.srv.apps p.appId "stopped" (toString w.now)) := by
  refine ⟨?_, ?_, ?_⟩
  · intro w appId pid h
    rw [cancelBuildStep_some w appId pid h]
    exact ⟨rfl, rfl, List.mem_append_right _ (List.mem_singleton_self _), rfl⟩
  · intro evs w' hsteps hnd hnow
    obtain ⟨-, -, -, hlast⟩ := InvCancel_steps wCancelled evs w' hsteps InvCancel_wCancelled hnd
    rcases hlast with hex | ⟨-, hle, -⟩
    · exact hex
    · omega
  · intro w pid p s hf hst
    have hf2 : findProc w.procs pid =
        some ⟨p.pid, p.appId, ProcState.exited (ExitKind.bySignal s), p.closeDone⟩ := by
      rw [hf, ← hst]
    rw [closeCallback_exited w pid p.pid p.appId (ExitKind.bySignal s) p.closeDone hf2]
    rfl

/-- Witness for C4 (amended): the concrete in-flight build is SIGTERMed with
status going to `stopped` at once; a run in which the process ignores the
signal gets force-killed at the 5-second deadline; and the close handler on a
signal exit records `stopped`. -/
theorem cancel_build_contract_witness :
    alookup "app1" wBuild.activeBuilds = some 1 ∧
    (cancelBuildStep wBuild "app1").1 = true ∧
    noDeploys evsKill ∧
    5000 < wKilled.now ∧
    isExited wKilled 1 = true ∧
    findProc wTermExited.procs 1 =
      some ⟨1, "app1", ProcState.exited (.bySignal .term), false⟩ ∧
    (closeCallback wTermExited 1).srv.apps =
      setAppStatusTs wTermExited.srv.apps "app1" "stopped" (toString wTermExited.now) := by
  have hsteps : Steps wCancelled evsKill wKilled :=
    Steps.cons _ _ _ _ (by decide)
      (Steps.cons _ _ _ _ (by decide)
        (Steps.cons _ _ _ _ (by decide) (Steps.nil _)))
  have hnd : noDeploys evsKill := by
    intro e he a
    simp only [evsKill, List.mem_cons, List.not_mem_nil, or_false] at he
    rcases he with rfl | rfl | rfl <;> simp
  refine ⟨by decide, (cancel_build_contract.1 wBuild "app1" 1 (by decide)).1, hnd,
    by decide, cancel_build_contract.2.1 evsKill wKilled hsteps hnd (by decide),
    by decide, ?_⟩
  exact cancel_build_contract.2.2 wTermExited 1
    ⟨1, "app1", ProcState.exited (.bySignal .term), false⟩ Sig.term (by decide) rfl

/-- C4 counterexample: immediately after the cancel is processed, the registry
status for `app1` is already `stopped` while the build process has NOT yet
exited — refuting "status transitions to 'stopped' only once the process has
actually exited". -/
theorem cancel_stopped_before_exit :
    (cancelBuildStep wBuild "app1").1 = true ∧
    findProc wCancelled.procs 1 = some ⟨1, "app1", ProcState.sigterm, false⟩ ∧
    isExited wCancelled 1 = false ∧
    findApp wCancelled.srv.apps "app1" = some { app1 with status := "stopped" } := by
  decide

/-! ## Deploy supersession (claim C1) -/

theorem findProc_two_inv {st1 st2 : ProcState} {cd1 cd2 : Bool} {pid : Nat} {p : Proc}
    (h : findProc [⟨1, "app1", st1, cd1⟩, ⟨2, "app1", st2, cd2⟩] pid = some p) :
    (pid = 1 ∧ p = ⟨1, "app1", st1, cd1⟩) ∨ (pid = 2 ∧ p = ⟨2, "app1", st2, cd2⟩) := by
  by_cases h1 : (1 : Nat) = pid
  · subst h1
    refine Or.inl ⟨rfl, ?_⟩
    have hc : findProc [(⟨1, "app1", st1, cd1⟩ : Proc), ⟨2, "app1", st2, cd2⟩] 1 =
        some ⟨1, "app1", st1, cd1⟩ := rfl
    rw [hc] at h
    exact (Option.some_inj.1 h).symm
  · by_cases h2 : (2 : Nat) = pid
    · subst h2
      refine Or.inr ⟨rfl, ?_⟩
      have hc : findProc [(⟨1, "app1", st1, cd1⟩ : Proc), ⟨2, "app1", st2, cd2⟩] 2 =
          some ⟨2, "app1", st2, cd2⟩ := rfl
      rw [hc] at h
      exact (Option.some_inj.1 h).symm
    · have hc : findProc [(⟨1, "app1", st1, cd1⟩ : Proc), ⟨2, "app1", st2, cd2⟩] pid =
          none := by
        unfold findProc
        rw [List.find?_cons_of_neg _ (by simpa using h1),
          List.find?_cons_of_neg _ (by simpa using h2), List.find?_nil]
      rw [hc] at h
      cases h

theorem InvTwo_step (w : World) (e : Ev) (hw : InvTwo w)
    (he : enabled w e = true) (hd : (∀ a, e ≠ Ev.deploy a) ∧ (∀ a, e ≠ Ev.cancelReq a)) :
    InvTwo (stepEv w e) := by
  obtain ⟨⟨st1, cd1, st2, cd2, hprocs, hst1, hst2⟩, htimers, hab⟩ := hw
  cases e with
  | deploy a => exact absurd rfl (hd.1 a)
  | cancelReq a => exact absurd rfl (hd.2 a)
  | tick d => exact ⟨⟨st1, cd1, st2, cd2, hprocs, hst1, hst2⟩, htimers, hab⟩
  | procExitTerm pid =>
    obtain ⟨p, hf, hstp⟩ := enabled_procExitTerm w pid he
    rw [hprocs] at hf
    rcases findProc_two_inv hf with ⟨rfl, rfl⟩ | ⟨rfl, rfl⟩
    · have hpr : (stepEv w (Ev.procExitTerm 1)).procs =
          [⟨1, "app1", ProcState.exited (ExitKind.bySignal Sig.term), cd1⟩,
            ⟨2, "app1", st2, cd2⟩] := by
        show mapProc w.procs 1 _ = _
        rw [hprocs]
        rfl
      exact ⟨⟨_, cd1, st2, cd2, hpr, Or.inr ⟨_, rfl⟩, hst2⟩, htimers, hab⟩
    · have hstx : st2 = ProcState.sigterm := hstp
      rcases hst2 with h2 | ⟨c, h2⟩
      · rw [h2] at hstx
        exact absurd hstx (by simp)
      · rw [h2] at hstx
        exact absurd hstx (by simp)
  | procExitNormal pid code =>
    obtain ⟨p, hf, hstp⟩ := enabled_procExitNormal w pid code he
    rw [hprocs] at hf
    rcases findProc_two_inv hf with ⟨rfl, rfl⟩ | ⟨rfl, rfl⟩
    · have hstx : st1 = ProcState.running := hstp
      rcases hst1 with h1 | ⟨sg, h1⟩
      · rw [h1] at hstx
        exact absurd hstx (by simp)
      · rw [h1] at hstx
        exact absurd hstx (by simp)
    · have hpr : (stepEv w (Ev.procExitNormal 2 code)).procs =
          [⟨1, "app1", st1, cd1⟩,
            ⟨2, "app1", ProcState.exited (ExitKind.normal code), cd2⟩] := by
        show mapProc w.procs 2 _ = _
        rw [hprocs]
        rfl
      exact ⟨⟨st1, cd1, _, cd2, hpr, hst1, Or.inr ⟨_, rfl⟩⟩, htimers, hab⟩
  | timerFire t =>
    obtain ⟨hmem, hdl⟩ := enabled_timerFire w t he
    obtain ⟨hta, htp⟩ := htimers t hmem
    show InvTwo (timerCallback w t)
    rcases hab with hab | hab
    · have hsome : (alookup t.appId w.activeBuilds).isSome = true := by
        rw [hta, hab]
        rfl
      have htc := timerCallback_hit w t hsome
      have hpr : (timerCallback w t).procs =
          [⟨1, "app1", deliverSigkill st1, cd1⟩, ⟨2, "app1", st2, cd2⟩] := by
        rw [htc, htp, hprocs]
        rfl
      have hactc : (timerCallback w t).activeBuilds = [] := by
        rw [htc, hta, hab]
        rfl
      have htmc : (timerCallback w t).timers = eraseTimer t w.timers := by rw [htc]
      refine ⟨⟨_, cd1, st2, cd2, hpr, ?_, hst2⟩, ?_, Or.inr hactc⟩
      · rcases hst1 with h1 | ⟨sg, h1⟩
        · refine Or.inr ⟨Sig.kill, ?_⟩
          rw [h1]
          rfl
        · refine Or.inr ⟨sg, ?_⟩
          rw [h1]
          rfl
      · intro t2 ht2
        rw [htmc] at ht2
        exact htimers t2 (mem_eraseTimer ht2)
    · have hsome : (alookup t.appId w.activeBuilds).isSome = false := by
        rw [hab]
        rfl
      have htc := timerCallback_miss w t hsome
      have hpr : (timerCallback w t).procs =
          [⟨1, "app1", st1, cd1⟩, ⟨2, "app1", st2, cd2⟩] := by
        rw [htc]
        exact hprocs
      refine ⟨⟨st1, cd1, st2, cd2, hpr, hst1, hst2⟩, ?_, ?_⟩
      · intro t2 ht2
        rw [htc] at ht2
        exact htimers t2 (mem_eraseTimer ht2)
      · rw [htc]
        exact Or.inr hab
  | closeCb pid =>
    obtain ⟨p, e0, hf, hstp, hcdp⟩ := enabled_closeCb w pid he
    rw [hprocs] at hf
    show InvTwo (closeCallback w pid)
    rcases findProc_two_inv hf with ⟨rfl, rfl⟩ | ⟨rfl, rfl⟩
    · have hstx : st1 = ProcState.exited e0 := hstp
      have hfc : findProc w.procs 1 = some ⟨1, "app1", ProcState.exited e0, cd1⟩ := by
        rw [hprocs, hstx]
        rfl
      have hcc := closeCallback_exited w 1 1 "app1" e0 cd1 hfc
      have hpr : (closeCallback w 1).procs =
          [⟨1, "app1", st1, true⟩, ⟨2, "app1", st2, cd2⟩] := by
        rw [hcc, hprocs]
        rfl
      have hacc : (closeCallback w 1).activeBuilds = [] := by
        rw [hcc]
        rcases hab with hab | hab
        · rw [hab]
          rfl
        · rw [hab]
          rfl
      have htcc : (closeCallback w 1).timers = w.timers := by rw [hcc]
      refine ⟨⟨st1, true, st2, cd2, hpr, hst1, hst2⟩, ?_, Or.inr hacc⟩
      intro t2 ht2
      rw [htcc] at ht2
      exact htimers t2 ht2
    · have hstx : st2 = ProcState.exited e0 := hstp
      have hfc : findProc w.procs 2 = some ⟨2, "app1", ProcState.exited e0, cd2⟩ := by
        rw [hprocs, hstx]
        rfl
      have hcc := closeCallback_exited w 2 2 "app1" e0 cd2 hfc
      have hpr : (closeCallback w 2).procs =
          [⟨1, "app1", st1, cd1⟩, ⟨2, "app1", st2, true⟩] := by
        rw [hcc, hprocs]
        rfl
      have hacc : (closeCallback w 2).activeBuilds = [] := by
        rw [hcc]
        rcases hab with hab | hab
        · rw [hab]
          rfl
        · rw [hab]
          rfl
      have htcc : (closeCallback w 2).timers = w.timers := by rw [hcc]
      refine ⟨⟨st1, cd1, st2, true, hpr, hst1, hst2⟩, ?_, Or.inr hacc⟩
      intro t2 ht2
      rw [htcc] at ht2
      exact htimers t2 ht2

theorem InvTwo_steps (w : World) (evs : List Ev) (w' : World)
    (h : Steps w evs w') (hw : InvTwo w) (hd : noInterference evs) : InvTwo w' := by
  induction h with
  | nil w => exact hw
  | cons w e evs w' he hs ih =>
    refine ih ?_ ?_
    · exact InvTwo_step w e hw he (hd e (List.mem_cons_self _ _))
    · intro e' he'
      exact hd e' (List.mem_cons_of_mem _ he')

theorem InvTwo_wSecond : InvTwo wSecond := by
  refine ⟨⟨ProcState.sigterm, false, ProcState.running, false, by decide,
    Or.inl rfl, Or.inl rfl⟩, by decide, Or.inl (by decide)⟩

/-- C1: a second deploy request for an id with an active build first observes
and cancels the in-flight process — `deployApp` runs `cancelBuild` before
setting `building` and spawning, so in the post-state the superseded process
has been delivered `SIGTERM` and the fresh process handle is registered — and
in the two-rapid-deploys scenario the superseded process can only terminate by
a signal (its pipeline's close handler records `stopped`) while the new
process can only exit normally, so in every settled deploy-free continuation
exactly one of the two pipelines — the second — reaches a `running`/`error`
terminal state. -/
theorem deploy_supersession :
    (∀ (w : World) (appId : String) (pid : Nat),
        alookup appId w.activeBuilds = some pid →
        deployStep w appId =
          spawnStep (buildingStep (cancelBuildStep w appId).2 appId) appId ∧
        (deployStep w appId).procs =
          mapProc w.procs pid (fun p => { p with state := deliverSigterm p.state }) ++
            [⟨w.nextPid, appId, ProcState.running, false⟩] ∧
        alookup appId (deployStep w appId).activeBuilds = some w.nextPid ∧
        (⟨appId, pid, w.now + 5000⟩ : Timer) ∈ (deployStep w appId).timers) ∧
    (wSecond.procs =
        [⟨1, "app1", ProcState.sigterm, false⟩, ⟨2, "app1", ProcState.running, false⟩] ∧
      wSecond.activeBuilds = [("app1", 2)] ∧
      findApp wSecond.srv.apps "app1" = some { app1 with status := "building" }) ∧
    (∀ (evs : List Ev) (w' : World),
        Steps wSecond evs w' → noInterference evs →
        (∀ q ∈ w'.procs, q.pid = 1 →
            q.state = ProcState.sigterm ∨
              ∃ s, q.state = ProcState.exited (.bySignal s)) ∧
        (∀ q ∈ w'.procs, q.pid = 2 →
            q.state = ProcState.running ∨ ∃ c, q.state = ProcState.exited (.normal c)) ∧
        (Settled w' →
          (∃ s, findProc w'.procs 1 =
              some ⟨1, "app1", ProcState.exited (.bySignal s), true⟩ ∧
            closeStatusOf (.bySignal s) = "stopped") ∧
          (∃ c, findProc w'.procs 2 =
              some ⟨2, "app1", ProcState.exited (.normal c), true⟩ ∧
            (closeStatusOf (.normal c) = "running" ∨
              closeStatusOf (.normal c) = "error")))) := by
  refine ⟨?_, ⟨by decide, by decide, by decide⟩, ?_⟩
  · intro w appId pid h
    refine ⟨rfl, ?_, ?_, ?_⟩
    · show (spawnStep (buildingStep (cancelBuildStep w appId).2 appId) appId).procs = _
      rw [cancelBuildStep_some w appId pid h]
      rfl
    · show alookup appId (spawnStep (buildingStep (cancelBuildStep w appId).2 appId)
          appId).activeBuilds = some w.nextPid
      rw [cancelBuildStep_some w appId pid h]
      exact alookup_ainsert_self appId _ _
    · show (⟨appId, pid, w.now + 5000⟩ : Timer) ∈
        (spawnStep (buildingStep (cancelBuildStep w appId).2 appId) appId).timers
      rw [cancelBuildStep_some w appId pid h]
      exact List.mem_append_right _ (List.mem_singleton_self _)
  · intro evs w' hsteps hni
    obtain ⟨⟨st1, cd1, st2, cd2, hprocs, hst1, hst2⟩, -, -⟩ :=
      InvTwo_steps wSecond evs w' hsteps InvTwo_wSecond hni
    refine ⟨?_, ?_, ?_⟩
    · intro q hq hq1
      rw [hprocs] at hq
      rcases List.mem_cons.1 hq with rfl | hq'
      · exact hst1
      · rcases List.mem_cons.1 hq' with rfl | hq''
        · simp at hq1
        · cases hq''
    · intro q hq hq2
      rw [hprocs] at hq
      rcases List.mem_cons.1 hq with rfl | hq'
      · simp at hq2
      · rcases List.mem_cons.1 hq' with rfl | hq''
        · exact hst2
        · cases hq''
    · intro hsett
      have h1 := hsett ⟨1, "app1", st1, cd1⟩
        (by rw [hprocs]; exact List.mem_cons_self _ _)
      have h2 := hsett ⟨2, "app1", st2, cd2⟩
        (by rw [hprocs]; exact List.mem_cons_of_mem _ (List.mem_cons_self _ _))
      obtain ⟨⟨e1, he1⟩, hcd1⟩ := h1
      obtain ⟨⟨e2, he2⟩, hcd2⟩ := h2
      have he1' : st1 = ProcState.exited e1 := he1
      have he2' : st2 = ProcState.exited e2 := he2
      have hcd1' : cd1 = true := hcd1
      have hcd2' : cd2 = true := hcd2
      rcases hst1 with hbad | ⟨sg, hsg⟩
      · rw [he1'] at hbad
        simp at hbad
      rcases hst2 with hbad | ⟨c, hc⟩
      · rw [he2'] at hbad
        simp at hbad
      refine ⟨⟨sg, ?_, rfl⟩, ⟨c, ?_, ?_⟩⟩
      · rw [hprocs, hsg, hcd1']
        rfl
      · rw [hprocs, hc, hcd2']
        rfl
      · by_cases hc0 : c = 0
        · exact Or.inl (by simp [closeStatusOf, hc0])
        · exact Or.inr (by simp [closeStatusOf, hc0])

/-- Witness for C1 at the concrete scenario: the second deploy registers
process 2 and schedules the force-kill timer for process 1, and the settled
run ends with pipeline 1 closed `stopped` (signal exit) and pipeline 2 closed
`running` (normal exit, code 0). -/
theorem deploy_supersession_witness :
    alookup "app1" wSecond.activeBuilds = some 2 ∧
    (⟨"app1", 1, 5000⟩ : Timer) ∈ wSecond.timers ∧
    noInterference evsDone ∧
    Settled wDone ∧
    (∃ s, findProc wDone.procs 1 =
        some ⟨1, "app1", ProcState.exited (.bySignal s), true⟩ ∧
      closeStatusOf (.bySignal s) = "stopped") ∧
    (∃ c, findProc wDone.procs 2 =
        some ⟨2, "app1", ProcState.exited (.normal c), true⟩ ∧
      (closeStatusOf (.normal c) = "running" ∨ closeStatusOf (.normal c) = "error")) := by
  have h1 := deploy_supersession.1 (deployStep wIdle "app1") "app1" 1 (by decide)
  have hsteps : Steps wSecond evsDone wDone :=
    Steps.cons _ _ _ _ (by decide)
      (Steps.cons _ _ _ _ (by decide)
        (Steps.cons _ _ _ _ (by decide)
          (Steps.cons _ _ _ _ (by decide) (Steps.nil _))))
  have hni : noInterference evsDone := by
    intro e he
    simp only [evsDone, List.mem_cons, List.not_mem_nil, or_false] at he
    rcases he with rfl | rfl | rfl | rfl
    all_goals
      refine ⟨fun a h => ?_, fun a h => ?_⟩ <;> cases h
  have hsett : Settled wDone := by
    intro q hq
    have hp : wDone.procs = [⟨1, "app1", ProcState.exited (.bySignal .term), true⟩,
        ⟨2, "app1", ProcState.exited (.normal 0), true⟩] := by decide
    rw [hp] at hq
    rcases List.mem_cons.1 hq with rfl | hq'
    · exact ⟨⟨_, rfl⟩, rfl⟩
    · rcases List.mem_cons.1 hq' with rfl | hq''
      · exact ⟨⟨_, rfl⟩, rfl⟩
      · cases hq''
  have h := (deploy_supersession.2.2 evsDone wDone hsteps hni).2.2 hsett
  exact ⟨h1.2.2.1, h1.2.2.2, hni, hsett, h.1, h.2⟩

end PD
